import Mathlib

/-!
# Verification of the SAP community crawler (`script.py`)

This file is a shallow embedding, in Lean 4, of the crawl orchestrator and its
helpers from `script.py` of the SAP-WEB-SCRAPPING repository, together with
theorems settling the spec claims about it.

Modelling conventions:
* Python strings are Lean `String`s; character-level operations (the `re.sub`
  calls, substring tests with `in`, `str.split('/')`) are implemented over
  `List Char` exactly following the regular expressions of the source.
* External collaborators (the Playwright rendering engine, `aiohttp`
  downloads, `urllib.parse.urljoin`) are abstracted into environment records
  whose fields decide the outcome of each external call; the control flow
  around those calls is translated from the source.
* File-system side effects are recorded as an ordered trace of `Event`s; a
  separate interpreter `applyEvents` replays them onto an association-list
  file system.  This is faithful because the run never reads back any file it
  writes (the checkpoint is read once, before the loop starts).
* The `debug` diagnostics snapshots of the source are not modelled: no claim
  mentions them and they write only to the diagnostics directory.
-/

namespace SapScrape

/-! # Definitions -/

/-! ## Character/string helpers translated from the source's regexes -/
/-- `lcp pat l` : the character list `pat` is an initial segment of `l`. -/
def lcp : List Char → List Char → Bool
  | [], _ => true
  | _ :: _, [] => false
  | p :: ps, c :: cs => p == c && lcp ps cs

/-- Substring search: Python's `pat in s` on character lists. -/
def subSearch (pat : List Char) : List Char → Bool
  | [] => lcp pat []
  | l@(_ :: rest) => lcp pat l || subSearch pat rest

/-- Python's `pat in s` for strings. -/
def containsSub (s pat : String) : Bool := subSearch pat.toList s.toList

/-- `s.startswith(pat)` (kernel-computable form). -/
def strStartsWith (s pat : String) : Bool := lcp pat.toList s.toList

/-- Python's `str.split(sep)` for a one-character separator: splits at every
occurrence, keeping empty pieces. -/
def splitOnChar (sep : Char) : List Char → List (List Char)
  | [] => [[]]
  | c :: rest =>
    if c = sep then [] :: splitOnChar sep rest
    else
      match splitOnChar sep rest with
      | [] => [[c]]
      | g :: gs => (c :: g) :: gs

/-- Python's default `str.strip()` whitespace class (ASCII). -/
def isPySpace (c : Char) : Bool :=
  c == ' ' || c == '\t' || c == '\n' || c == '\r' || c == '\x0b' || c == '\x0c'

/-- Python's `str.strip()`. -/
def pyStrip (s : String) : String :=
  String.mk (((s.toList.dropWhile isPySpace).reverse.dropWhile isPySpace).reverse)

/-- The character class of `re.sub(r'[<>:"/\\|?*]', '_', ...)`. -/
def isUnsafeChar (c : Char) : Bool :=
  c == '<' || c == '>' || c == ':' || c == '"' || c == '/' ||
  c == '\\' || c == '|' || c == '?' || c == '*'

/-- `re.sub(r'[<>:"/\\|?*]', '_', s)` : each unsafe character becomes `_`. -/
def sanitizeUnsafe (s : String) : String :=
  String.mk (s.toList.map fun c => if isUnsafeChar c then '_' else c)

/-- The character class `[-\s]` (ASCII whitespace as in CPython's `\s`). -/
def isDashSpace (c : Char) : Bool :=
  c == '-' || c == ' ' || c == '\t' || c == '\n' || c == '\r' ||
  c == '\x0b' || c == '\x0c'

/-- Core of `re.sub(r'[-\s]+', '_', s)`: a maximal run of dash/space
characters is replaced by a single `_`.  The boolean records whether the
previous character belonged to the class. -/
def collapseDS (prevInClass : Bool) : List Char → List Char
  | [] => []
  | c :: rest =>
    if isDashSpace c then
      (if prevInClass then [] else ['_']) ++ collapseDS true rest
    else
      c :: collapseDS false rest

/-- `re.sub(r'[-\s]+', '_', s)`. -/
def collapseDashSpace (s : String) : String := String.mk (collapseDS false s.toList)

/-! ## `urlparse(url).path`

A minimal model of `urllib.parse.urlparse` sufficient for the URLs this
program feeds it: strip an `http://`/`https://` scheme and the authority,
then cut the remainder at the first `?` or `#`. -/
def takeUntilQueryFrag (l : List Char) : List Char :=
  l.takeWhile fun c => c ≠ '?' ∧ c ≠ '#'

def urlPath (u : String) : String :=
  let cs := u.toList
  let afterScheme : Option (List Char) :=
    if lcp "https://".toList cs then some (cs.drop 8)
    else if lcp "http://".toList cs then some (cs.drop 7)
    else none
  match afterScheme with
  | some rest => String.mk (takeUntilQueryFrag (rest.dropWhile (· ≠ '/')))
  | none => String.mk (takeUntilQueryFrag cs)

/-! ## `generate_filename_from_url` (script.py lines 76-97) -/
/-- `generate_filename_from_url(url)`:
`parts = [p for p in path.split('/') if p and p not in ['t5','qa-p','ct-p']]`,
then `sap_community_` + the sanitized first part, or `sap_community_data`
when no part remains. -/
def generate_filename_from_url (url : String) : String :=
  let path := urlPath url
  let parts := ((splitOnChar '/' path.toList).map String.mk).filter fun p =>
    p ≠ "" ∧ p ≠ "t5" ∧ p ≠ "qa-p" ∧ p ≠ "ct-p"
  match parts with
  | [] => "sap_community_data"
  | section_name :: _ =>
    "sap_community_" ++ collapseDashSpace (sanitizeUnsafe section_name)

/-! ## Link filtering (script.py lines 469-487) -/
/-- Line 473: `full = href if href.startswith('http') else
'https://community.sap.com' + href`. -/
def normalizeHref (href : String) : String :=
  if strStartsWith href "http" then href else "https://community.sap.com" ++ href

/-- Line 475: `'/user/viewprofilepage' in full`. -/
def isProfileUrl (full : String) : Bool :=
  containsSub full "/user/viewprofilepage"

/-- Tail of the thread regex: one of the alternatives `qaq-p/`, `qaa-p/`,
`qa-p/` starts here. -/
def altAt (l : List Char) : Bool :=
  lcp "qaq-p/".toList l || lcp "qaa-p/".toList l || lcp "qa-p/".toList l

/-- After at least one `.`-matched character: either the next character is
the literal `/` followed by an accepted alternative, or it is a further
`.`-matched character (anything but a newline). -/
def afterDot : List Char → Bool
  | [] => false
  | c :: r => (c == '/' && altAt r) || (c != '\n' && afterDot r)

/-- The `.+/(?:qaq|qaa|qa)-p/` part of the regex, anchored at the start of
the list: at least one non-newline character, then `/`, then an
alternative. -/
def dotPlusAlt : List Char → Bool
  | [] => false
  | c :: r => c != '\n' && afterDot r

/-- `re.search(r'/t5/.+/(?:qaq|qaa|qa)-p/', s)` (line 478): try every
position for the literal `/t5/` followed by `dotPlusAlt`. -/
def searchT5 : List Char → Bool
  | [] => false
  | l@(_ :: rest) => (lcp "/t5/".toList l && dotPlusAlt (l.drop 4)) || searchT5 rest

/-- A normalized link matches the thread-URL pattern. -/
def isThreadUrl (full : String) : Bool := searchT5 full.toList

/-- The filter of lines 470-479: normalize, drop profile pages, keep thread
pattern matches, in order. -/
def filterLinks : List String → List String
  | [] => []
  | href :: rest =>
    let full := normalizeHref href
    if isProfileUrl full then filterLinks rest
    else if isThreadUrl full then full :: filterLinks rest
    else filterLinks rest

/-- Lines 482-487: deduplicate while preserving order, `seen` being the set
of already-emitted URLs. -/
def dedupKeep (seen : List String) : List String → List String
  | [] => []
  | u :: rest =>
    if u ∈ seen then dedupKeep seen rest
    else u :: dedupKeep (u :: seen) rest

/-- The whole link-processing step producing `q_urls` for a page. -/
def filterAndDedup (hrefs : List String) : List String :=
  dedupKeep [] (filterLinks hrefs)

/-! Spec-side formulation of the same step, written from the spec's words:
keep the normalized hrefs that are not profile pages and match the
thread-URL pattern, then keep the first occurrence of each. -/
/-- The predicate of the spec: kept after normalization. -/
def keepLink (u : String) : Bool := !isProfileUrl u && isThreadUrl u

/-- First-seen-order deduplication, written as a left fold that appends an
element only when it has not been emitted yet. -/
def firstSeen (l : List String) : List String :=
  l.foldl (fun acc u => if u ∈ acc then acc else acc ++ [u]) []

/-- Modelled from the spec's words for the link-filtering step. -/
def specLinkFilter (hrefs : List String) : List String :=
  firstSeen (((hrefs.map normalizeHref).filter keepLink))

/-! ## Data model: images, responses, records -/
/-- `{original_url, local_path, alt_text, filename}` as appended at
script.py lines 141-146. -/
structure ImageRef where
  original_url : String
  local_path : String
  alt_text : String
  filename : String
deriving Repr, DecidableEq

/-- One response dict as built at lines 201-208. -/
structure Response where
  response_number : Nat
  text : String
  is_accepted : Bool
  author : String
  date : String
  images : List ImageRef
deriving Repr, DecidableEq

/-- One answer element of the rendered page, as the extraction code observes
it: the DOM reads that `extract_all_responses` performs on the element. -/
structure AnswerElem where
  /-- inner text of the first matching body selector, `none` when neither
  `.lia-message-body` nor `[id^="bodyDisplay"]` matches (lines 168-174) -/
  bodySelText : Option String
  /-- `answer_elem.inner_text()` (line 177) -/
  fullText : String
  /-- `answer_elem.get_attribute("class")` (line 181) -/
  classAttr : Option String
  /-- inner text of the author element, if one matches (lines 186-189) -/
  authorText : Option String
  /-- inner text of the date element, if one matches (lines 192-195) -/
  dateText : Option String
  /-- images returned by `extract_images_from_element` on this element -/
  images : List ImageRef
  /-- an exception is raised while extracting this response, so the
  per-response `except` skips it (lines 212-213) -/
  raises : Bool
deriving Repr, DecidableEq

/-- Build the response dict for element number `i` (0-based), lines 164-208. -/
def mkResponse (i : Nat) (e : AnswerElem) : Response :=
  let response_text :=
    match e.bodySelText with
    | some t => if t = "" then e.fullText else t
    | none => e.fullText
  let classes := e.classAttr.getD ""
  { response_number := i + 1,
    text := pyStrip response_text,
    is_accepted := containsSub classes "lia-accepted-solution" ||
      containsSub classes "lia-list-row-thread-solved",
    author := pyStrip (e.authorText.getD ""),
    date := pyStrip (e.dateText.getD ""),
    images := e.images }

/-- The enumeration loop of `extract_all_responses`: elements whose
extraction raises are skipped but still consume their index. -/
def extractResponsesFrom : Nat → List AnswerElem → List Response
  | _, [] => []
  | i, e :: rest =>
    if e.raises then extractResponsesFrom (i + 1) rest
    else mkResponse i e :: extractResponsesFrom (i + 1) rest

/-- `extract_all_responses(page)` (lines 156-218), as a function of the
answer elements found on the page. -/
def extract_all_responses (answers : List AnswerElem) : List Response :=
  extractResponsesFrom 0 answers

/-! ## Image extraction (`extract_images_from_element`, lines 99-154) -/
/-- One `<img>` element: the two attributes the code reads. -/
structure ImgElem where
  src : Option String
  alt : Option String
deriving Repr, DecidableEq

/-- Outcome of `session.get(src)`: an HTTP status, or a raised network
exception. -/
inductive DownloadResult where
  | status (code : Nat)
  | netError
deriving Repr, DecidableEq

/-- Environment of the image fetcher: `urllib.parse.urljoin` (external,
uninterpreted), the downloader, and whether `os.makedirs` succeeds. -/
structure ImgEnv where
  urljoin : String → String → String
  download : String → DownloadResult
  mkdirOk : Bool

/-- `alt = await img.get_attribute("alt") or f"image_{i}"` (line 114):
`or` takes the default on `None` and on the empty string. -/
def altValue (i : Nat) (alt : Option String) : String :=
  match alt with
  | some s => if s = "" then "image_" ++ toString i else s
  | none => "image_" ++ toString i

/-- Lines 120-125: protocol-relative, root-relative, and other non-absolute
sources. -/
def resolveSrc (env : ImgEnv) (base_url src : String) : String :=
  if strStartsWith src "//" then "https:" ++ src
  else if strStartsWith src "/" then env.urljoin base_url src
  else if !strStartsWith src "http" then env.urljoin base_url src
  else src

/-- Characters after the last `/` of a path. -/
def basenameOf (path : String) : String :=
  String.mk ((path.toList.reverse.takeWhile (· ≠ '/')).reverse)

/-- `os.path.splitext(path)[1]`: the suffix from the last dot of the
basename, unless every character before that dot is itself a dot (so
`.bashrc` has no extension). -/
def splitextExt (path : String) : String :=
  let bn := (basenameOf path).toList
  if bn.contains '.' then
    let afterDotRev := bn.reverse.takeWhile (· ≠ '.')
    let pre := bn.take (bn.length - afterDotRev.length - 1)
    if pre.any (· ≠ '.') then String.mk ('.' :: afterDotRev.reverse) else ""
  else ""

/-- The body of the per-image loop (lines 110-149) for image number `i`:
`none` when the image contributes no entry (missing `src`, non-200 status,
or network exception), `some entry` when it is downloaded and recorded.
`os.path.join` is modelled with the `/` separator. -/
def imgEntry (env : ImgEnv) (base_url images_dir : String) (i : Nat) (e : ImgElem) :
    Option ImageRef :=
  match e.src with
  | none => none
  | some src0 =>
    let alt := altValue i e.alt
    let src := resolveSrc env base_url src0
    let ext0 := splitextExt (urlPath src)
    let file_ext := if ext0 = "" then ".jpg" else ext0
    let safe_filename :=
      String.mk ((sanitizeUnsafe alt).toList.take 50) ++ "_" ++ toString i ++ file_ext
    let local_path := images_dir ++ "/" ++ safe_filename
    match env.download src with
    | .status code =>
      if code = 200 then
        some { original_url := src, local_path := local_path,
               alt_text := alt, filename := safe_filename }
      else none
    | .netError => none

/-- The enumeration loop over all `<img>` elements. -/
def extractImagesLoop (env : ImgEnv) (base_url images_dir : String) :
    Nat → List ImgElem → List ImageRef
  | _, [] => []
  | i, e :: rest =>
    match imgEntry env base_url images_dir i e with
    | some r => r :: extractImagesLoop env base_url images_dir (i + 1) rest
    | none => extractImagesLoop env base_url images_dir (i + 1) rest

/-- `extract_images_from_element` (lines 99-154): when `os.makedirs` (or the
initial query) raises, the outer `except` returns the empty list. -/
def extract_images_from_element (env : ImgEnv) (base_url images_dir : String)
    (imgs : List ImgElem) : List ImageRef :=
  if env.mkdirOk then extractImagesLoop env base_url images_dir 0 imgs else []

/-! ## Thread records (the result dicts of lines 632-672) -/
structure Record where
  page_number : Nat
  system : String
  title : String
  question : String
  question_images : List ImageRef
  tags : List String
  url : String
  total_responses : Nat
  all_responses : List Response
  accepted_responses : List Response
  non_accepted_responses : List Response
  primary_accepted_response : String
  primary_response : String
deriving Repr, DecidableEq

/-- What the per-thread extraction (lines 541-641) observes for a thread that
loads and parses without an unhandled exception. -/
structure ThreadData where
  title : String
  /-- `some (text, images)` when one of the question-body selectors matches:
  its inner text and the images extracted from the matched container.  The
  successful match also rebinds the enclosing `base_filename` to
  `generate_filename_from_url(q_url)` (lines 568-577). -/
  body : Option (String × List ImageRef)
  tags : List String
  system : String
  /-- the answer elements matching `.MessageView.lia-message-view-qanda-answer` -/
  answers : List AnswerElem
deriving Repr, DecidableEq

/-- `base_result` of lines 632-642 (the keys added later by the two branches
start out empty). -/
def mkBaseRecord (page_num : Nat) (q_url : String) (d : ThreadData) : Record :=
  let all_responses := extract_all_responses d.answers
  { page_number := page_num,
    system := d.system,
    title := d.title,
    question := (d.body.map Prod.fst).getD "",
    question_images := (d.body.map Prod.snd).getD [],
    tags := d.tags,
    url := q_url,
    total_responses := all_responses.length,
    all_responses := all_responses,
    accepted_responses := [],
    non_accepted_responses := [],
    primary_accepted_response := "",
    primary_response := "" }

/-- `result_entry` of the accepted branch (lines 644-649). -/
def mkAcceptedRecord (page_num : Nat) (q_url : String) (d : ThreadData) : Record :=
  let all_responses := extract_all_responses d.answers
  let acc := all_responses.filter (·.is_accepted)
  let non := all_responses.filter (fun r => !r.is_accepted)
  { mkBaseRecord page_num q_url d with
    accepted_responses := acc,
    non_accepted_responses := non,
    primary_accepted_response := ((acc.head?).map (·.text)).getD "" }

/-- `result_entry` of the no-accepted branch (lines 667-670). -/
def mkNoAcceptedRecord (page_num : Nat) (q_url : String) (d : ThreadData) : Record :=
  let all_responses := extract_all_responses d.answers
  let non := all_responses.filter (fun r => !r.is_accepted)
  { mkBaseRecord page_num q_url d with
    non_accepted_responses := non,
    primary_response := ((non.head?).map (·.text)).getD "" }

/-! ## The crawl environment and observable events -/
/-- Outcome of processing one list page, abstracting the external calls of
lines 414-467: either all three navigation attempts fail (or stay blocked),
or an exception is raised in the unguarded selector region after a
successful navigation (the `except TimeoutError` of line 448 catches only
timeouts; `query_selector_all` at lines 453-461 is outside every `try`), or
the page loads and link discovery yields a list of hrefs. -/
inductive PageOutcome where
  | loadFail
  | selectorRaise
  | loaded (hrefs : List String)

/-- Outcome of processing one thread, abstracting lines 516-702: both
navigation attempts fail (thread skipped); an exception inside the big `try`
of line 541 (caught at line 693), where `bodyMatched` records whether the
question-body selector had already matched — and hence rebound
`base_filename` — before the exception; or a full successful extraction. -/
inductive ThreadOutcome where
  | navFail
  | parseError (bodyMatched : Bool)
  | ok (d : ThreadData)

/-- The crawl environment: browser launch/close success and the outcome of
each external interaction, keyed by page index and by (normalized) thread
URL. -/
structure Env where
  launchOk : Bool
  closeOk : Bool
  pageOutcome : Nat → PageOutcome
  threadOutcome : String → ThreadOutcome

/-- Observable side effects of the run, in order.  `checkpointWrite` is
`save_progress_checkpoint`, `flushWrite` is `_save_results_incrementally`
(which rewrites the two JSON files and the Excel export), `pageFetch` is the
first `page.goto` attempt for a list page, `threadNav` the first `page.goto`
attempt for a thread, and `recordAppended` the append to one of the two
in-memory collections. -/
inductive Event where
  | checkpointWrite (fname : String) (pg : Nat) (url : String)
  | flushWrite (fname : String) (acc no_acc : List Record)
  | pageFetch (pg : Nat)
  | threadNav (url : String)
  | recordAppended (isAccepted : Bool) (r : Record)
deriving Repr, DecidableEq

/-- The mutable locals of `scrape_sap_community`.  The event trace is
returned separately by each loop, in emission order. -/
structure RunState where
  base_filename : String
  accepted_results : List Record
  no_accepted_results : List Record
  visited_count : Nat
  stop_all : Bool
deriving Repr, DecidableEq

/-- `max_questions is not None and visited_count >= max_questions`
(lines 508, 663, 684). -/
def quotaReached (max_questions : Option Nat) (visited_count : Nat) : Bool :=
  match max_questions with
  | none => false
  | some n => decide (n ≤ visited_count)

/-! ## The per-thread loop body (lines 506-702) -/
/-- One iteration of the `for q_url in q_urls` loop without its quota
pre-check (lines 511-702).  Lines 511-512 renormalize the URL with the same
computation as line 473, i.e. `normalizeHref`.  Returns the updated state
and the events emitted, in order: the navigation, then (on success) the
append, the flush of both collections, and the post-thread checkpoint —
both file writes under the `base_filename` current at that moment. -/
def processThread (env : Env) (max_questions : Option Nat) (page_num : Nat)
    (q_url0 : String) (st : RunState) : RunState × List Event :=
  let q_url := normalizeHref q_url0
  match env.threadOutcome q_url with
  | .navFail => (st, [.threadNav q_url])
  | .parseError bodyMatched =>
    ((if bodyMatched then { st with base_filename := generate_filename_from_url q_url }
      else st),
     [.threadNav q_url])
  | .ok d =>
    let st1 :=
      match d.body with
      | some _ => { st with base_filename := generate_filename_from_url q_url }
      | none => st
    let all_responses := extract_all_responses d.answers
    let accepted_responses := all_responses.filter (·.is_accepted)
    if accepted_responses.isEmpty then
      let r := mkNoAcceptedRecord page_num q_url d
      let st2 := { st1 with
        no_accepted_results := st1.no_accepted_results ++ [r],
        visited_count := st1.visited_count + 1 }
      ({ st2 with stop_all := quotaReached max_questions st2.visited_count },
       [.threadNav q_url, .recordAppended false r,
        .flushWrite st2.base_filename st2.accepted_results st2.no_accepted_results,
        .checkpointWrite st2.base_filename page_num q_url])
    else
      let r := mkAcceptedRecord page_num q_url d
      let st2 := { st1 with
        accepted_results := st1.accepted_results ++ [r],
        visited_count := st1.visited_count + 1 }
      ({ st2 with stop_all := quotaReached max_questions st2.visited_count },
       [.threadNav q_url, .recordAppended true r,
        .flushWrite st2.base_filename st2.accepted_results st2.no_accepted_results,
        .checkpointWrite st2.base_filename page_num q_url])

/-- The `for q_url in q_urls` loop with its quota pre-check (line 508) and
post-append checks; `stop_all` doubles as the `break` signal. -/
def threadsLoop (env : Env) (max_questions : Option Nat) (page_num : Nat) :
    List String → RunState → RunState × List Event
  | [], st => (st, [])
  | q_url :: rest, st =>
    if quotaReached max_questions st.visited_count then ({ st with stop_all := true }, [])
    else
      let o := processThread env max_questions page_num q_url st
      if o.1.stop_all then o
      else
        let o2 := threadsLoop env max_questions page_num rest o.1
        (o2.1, o.2 ++ o2.2)

/-- `url = f"{topic_url}?page={page_num}"` (line 409). -/
def listPageURL (topic_url : String) (page_num : Nat) : String :=
  topic_url ++ "?page=" ++ toString page_num

inductive ScrapeErr where
  | launchFail
  | selectorRaise
  | closeFail
deriving Repr, DecidableEq

/-- Result of the page loop: final state, events emitted, and the exception
(if any) that propagated out of it. -/
structure LoopOut where
  st : RunState
  trace : List Event
  err : Option ScrapeErr
deriving Repr, DecidableEq

/-- The `for page_num in range(start_page, max_pages + 1)` loop
(lines 408-706).  Each iteration first persists the checkpoint for the page
about to be fetched (line 412, under the current `base_filename`) and then
attempts the fetch.  A `selectorRaise` outcome propagates out of the loop
(the source catches only `TimeoutError` there); a `loadFail` page is
skipped; a page whose filtered link list is empty breaks out of the loop
(line 494). -/
def pagesLoop (env : Env) (topic_url : String) (max_questions : Option Nat) :
    List Nat → RunState → LoopOut
  | [], st => ⟨st, [], none⟩
  | page_num :: rest, st =>
    let pre : List Event :=
      [.checkpointWrite st.base_filename page_num (listPageURL topic_url page_num),
       .pageFetch page_num]
    match env.pageOutcome page_num with
    | .loadFail =>
      let o := pagesLoop env topic_url max_questions rest st
      ⟨o.st, pre ++ o.trace, o.err⟩
    | .selectorRaise => ⟨st, pre, some .selectorRaise⟩
    | .loaded hrefs =>
      let q_urls := filterAndDedup hrefs
      if q_urls.isEmpty then ⟨st, pre, none⟩
      else
        let t := threadsLoop env max_questions page_num q_urls st
        if t.1.stop_all then ⟨t.1, pre ++ t.2, none⟩
        else
          let o := pagesLoop env topic_url max_questions rest t.1
          ⟨o.st, pre ++ t.2 ++ o.trace, o.err⟩

/-- `range(start_page, max_pages + 1)`. -/
def pageRange (start_page max_pages : Nat) : List Nat :=
  List.range' start_page (max_pages + 1 - start_page)

/-! ## The file system and the replay of write events -/
inductive FileData where
  | checkpointData (last_page : Nat) (last_url : String)
  | resultsData (records : List Record)
  | excelData (rows : List Record)
deriving Repr, DecidableEq

abbrev Fs := List (String × FileData)

/-- Overwrite-on-write: the newest entry for a key shadows older ones. -/
def fsWrite (fs : Fs) (k : String) (v : FileData) : Fs := (k, v) :: fs

def fsLookup (fs : Fs) (k : String) : Option FileData :=
  (fs.find? (fun p => p.1 == k)).map (·.2)

def checkpointFile (bf : String) : String := "scrapped_data/" ++ bf ++ "_checkpoint.json"

def acceptedFile (bf : String) : String := "scrapped_data/" ++ bf ++ "_accepted.json"

def noAcceptedFile (bf : String) : String := "scrapped_data/" ++ bf ++ "_no_accepted.json"

def excelFile (bf : String) : String := "scrapped_data/" ++ bf ++ ".xlsx"

/-- `load_progress_checkpoint` (lines 37-49): absent or unreadable file means
`(0, '')`. -/
def load_progress_checkpoint (fs : Fs) (base_filename : String) : Nat × String :=
  match fsLookup fs (checkpointFile base_filename) with
  | some (.checkpointData p u) => (p, u)
  | _ => (0, "")

/-- The no-accepted half of the Excel row construction (lines 356-396): a
row is skipped when a row with the same url is already present. -/
def addNoAcceptedRows (rows : List Record) : List Record → List Record
  | [] => rows
  | n :: rest =>
    if rows.any (fun r => r.url == n.url) then addNoAcceptedRows rows rest
    else addNoAcceptedRows (rows ++ [n]) rest

/-- `excel_rows` of `_save_results_incrementally` (the per-row flattening to
delimited strings is not modelled; rows are identified with their records). -/
def excelRows (accepted_list no_accepted_list : List Record) : List Record :=
  addNoAcceptedRows accepted_list no_accepted_list

/-- Replay one write event onto the file system.  A flush rewrites the two
JSON files and, when `excel_rows` is nonempty, the Excel file (line 398). -/
def applyEvent (fs : Fs) : Event → Fs
  | .checkpointWrite f p u => fsWrite fs (checkpointFile f) (.checkpointData p u)
  | .flushWrite f acc no_acc =>
    let fs := fsWrite fs (acceptedFile f) (.resultsData acc)
    let fs := fsWrite fs (noAcceptedFile f) (.resultsData no_acc)
    let rows := excelRows acc no_acc
    if rows.isEmpty then fs else fsWrite fs (excelFile f) (.excelData rows)
  | _ => fs

def applyEvents (fs : Fs) (t : List Event) : Fs := t.foldl applyEvent fs

/-! ## The whole run (`scrape_sap_community`, lines 220-710) -/
structure ScrapeResult where
  state : RunState
  trace : List Event
  result : Except ScrapeErr (List Record × List Record)

def initState (topic_url : String) : RunState :=
  { base_filename := generate_filename_from_url topic_url,
    accepted_results := [],
    no_accepted_results := [],
    visited_count := 0,
    stop_all := false }

/-- `start_page` determination (lines 240-250): with `resume`, the loop
starts at the checkpoint's `last_page + 1`; otherwise at page 1. -/
def resumeStartPage (resume : Bool) (fs : Fs) (base_filename : String) : Nat :=
  if resume then (load_progress_checkpoint fs base_filename).1 + 1 else 1

/-- The run: read the checkpoint (resume only), launch the browser, drive the
page loop, close the browser.  Only launch/close failures and a raise in the
unguarded selector region of the page loop produce an `error` result. -/
def scrape_sap_community (env : Env) (topic_url : String) (max_pages : Nat)
    (max_questions : Option Nat) (resume : Bool) (fs0 : Fs) : ScrapeResult :=
  let base_filename := generate_filename_from_url topic_url
  let start_page := resumeStartPage resume fs0 base_filename
  if env.launchOk = false then ⟨initState topic_url, [], .error .launchFail⟩
  else
    let o := pagesLoop env topic_url max_questions (pageRange start_page max_pages)
      (initState topic_url)
    match o.err with
    | some e => ⟨o.st, o.trace, .error e⟩
    | none =>
      if env.closeOk then ⟨o.st, o.trace, .ok (o.st.accepted_results, o.st.no_accepted_results)⟩
      else ⟨o.st, o.trace, .error .closeFail⟩

/-! ## Trace observers

Boolean scanners over event traces.  Each is compositional under `++`, which
lets loop inductions avoid positional reasoning; positional corollaries are
derived from the scanners by pure list lemmas. -/
/-- Number of `recordAppended` events, i.e. threads successfully processed. -/
def countProcessed : List Event → Nat
  | [] => 0
  | e :: t =>
    (match e with
     | .recordAppended _ _ => 1
     | _ => 0) + countProcessed t

/-- No page fetch and no thread navigation occurs in the trace. -/
def noFetchNav : List Event → Bool
  | [] => true
  | e :: t =>
    match e with
    | .pageFetch _ => false
    | .threadNav _ => false
    | _ => noFetchNav t

/-- No page fetch occurs in the trace. -/
def noPageFetch : List Event → Bool
  | [] => true
  | e :: t =>
    match e with
    | .pageFetch _ => false
    | _ => noPageFetch t

/-- Replay of the append events onto the accepted collection. -/
def accAfter (acc : List Record) : List Event → List Record
  | [] => acc
  | e :: t =>
    match e with
    | .recordAppended true r => accAfter (acc ++ [r]) t
    | _ => accAfter acc t

/-- Replay of the append events onto the no-accepted collection. -/
def noAccAfter (no_acc : List Record) : List Event → List Record
  | [] => no_acc
  | e :: t =>
    match e with
    | .recordAppended false r => noAccAfter (no_acc ++ [r]) t
    | _ => noAccAfter no_acc t

/-- Every flush event snapshots exactly the collections accumulated at that
point (starting from the given ones). -/
def flushesOK : List Record → List Record → List Event → Bool
  | _, _, [] => true
  | acc, no_acc, e :: t =>
    match e with
    | .recordAppended true r => flushesOK (acc ++ [r]) no_acc t
    | .recordAppended false r => flushesOK acc (no_acc ++ [r]) t
    | .flushWrite _ a n => a == acc && n == no_acc && flushesOK acc no_acc t
    | _ => flushesOK acc no_acc t

/-- Scanner for quota obedience: every thread navigation happens while the
processed count is below `N`, and every page fetch while it is below `N` or
`N = 0` (with `max_questions = 0` the quota pre-check fires before any
navigation but after the page fetch). -/
def quotaOK (N : Nat) : Nat → List Event → Bool
  | _, [] => true
  | c, e :: t =>
    match e with
    | .recordAppended _ _ => quotaOK N (c + 1) t
    | .threadNav _ => decide (c < N) && quotaOK N c t
    | .pageFetch _ => (decide (c < N) || decide (N = 0)) && quotaOK N c t
    | _ => quotaOK N c t

/-- The event is the pre-fetch checkpoint write for page `p` of this topic
(any filename). -/
def isPrefetchCkpt (topic_url : String) (p : Nat) : Event → Bool
  | .checkpointWrite _ p' u => p' == p && u == listPageURL topic_url p
  | _ => false

/-- Scanner: every page fetch is immediately preceded by the matching
pre-fetch checkpoint write.  `prev` is the event preceding the scanned
suffix. -/
def prefetchAux (topic_url : String) : Event → List Event → Bool
  | _, [] => true
  | prev, e :: rest =>
    (match e with
     | .pageFetch p => isPrefetchCkpt topic_url p prev
     | _ => true) && prefetchAux topic_url e rest

/-- A trace in which every page fetch (including the first event) is
immediately preceded by the matching checkpoint write. -/
def prefetchOK (topic_url : String) : List Event → Bool
  | [] => true
  | e :: rest =>
    (match e with
     | .pageFetch _ => false
     | _ => true) && prefetchAux topic_url e rest

/-- Page `p` loaded and yielded zero links after filtering. -/
def emptyFiltered (env : Env) (p : Nat) : Bool :=
  match env.pageOutcome p with
  | .loaded hrefs => (filterAndDedup hrefs).isEmpty
  | _ => false

/-- Scanner: after a page fetch whose filtered link list is empty, the trace
ends immediately. -/
def afterEmptyOK (env : Env) : List Event → Bool
  | [] => true
  | e :: t =>
    match e with
    | .pageFetch p => if emptyFiltered env p then t.isEmpty else afterEmptyOK env t
    | _ => afterEmptyOK env t

/-- Witness for C5 at a concrete environment: one answer element carrying the
accepted marker class sends the record to the accepted collection. -/
def answerElemW : AnswerElem :=
  { bodySelText := some "the answer", fullText := "full text",
    classAttr := some "MessageView lia-accepted-solution",
    authorText := some "alice", dateText := none, images := [], raises := false }

def threadDataW : ThreadData :=
  { title := "t", body := some ("q", []), tags := ["tag"], system := "sys",
    answers := [answerElemW] }

def envW : Env :=
  { launchOk := true, closeOk := true,
    pageOutcome := fun _ => .loaded [],
    threadOutcome := fun _ => .ok threadDataW }

/-! ## Claim C10: failed image downloads are omitted -/
/-- A download attempt that did not return HTTP 200 (a non-success status or
a raised network exception). -/
def downloadFailed : DownloadResult → Prop
  | .status code => code ≠ 200
  | .netError => True

def imgEnvW : ImgEnv :=
  { urljoin := fun _ s => s,
    download := fun u => if u = "https://x.com/a.png" then .status 200 else .status 404,
    mkdirOk := true }

def imgsW : List ImgElem :=
  [{ src := some "https://x.com/a.png", alt := some "alt1" },
   { src := some "https://x.com/b.png", alt := none }]

/-! ## Claim C1: persisted-artifact filenames -/
def topicC1 : String := "https://community.sap.com/t5/crm-and-cx-q-a/qa-p/crm-questions"

def threadUrlC1 : String :=
  "https://community.sap.com/t5/enterprise-resource-planning-q-a/some-question/qa-p/123"

def threadDataC1 : ThreadData :=
  { title := "T", body := some ("Q", []), tags := [], system := "S",
    answers := [{ bodySelText := some "A", fullText := "full",
                  classAttr := some "lia-accepted-solution x",
                  authorText := none, dateText := none, images := [], raises := false }] }

def envC1 : Env :=
  { launchOk := true, closeOk := true,
    pageOutcome := fun _ => .loaded [threadUrlC1],
    threadOutcome := fun u => if u = threadUrlC1 then .ok threadDataC1 else .navFail }

/-! ## Claim C2: checkpoint before fetch, and what resume then does -/
def topicC2 : String := "https://community.sap.com/t5/technology-q-a/qa-p/technology-questions"

def fsC2 : Fs :=
  [(checkpointFile (generate_filename_from_url topicC2), .checkpointData 2 "prev-url")]

def envC2 : Env :=
  { launchOk := true, closeOk := true,
    pageOutcome := fun _ => .loadFail,
    threadOutcome := fun _ => .navFail }

/-! ## Claim C4: resume starts after the checkpointed page -/
def topicC4 : String :=
  "https://community.sap.com/t5/financial-management-q-a/qa-p/financial-management-questions"

def fsC4 : Fs :=
  [(checkpointFile (generate_filename_from_url topicC4), .checkpointData 4 "done")]

def envC4 : Env :=
  { launchOk := true, closeOk := true,
    pageOutcome := fun _ => .loadFail,
    threadOutcome := fun _ => .navFail }

def topicC7 : String := "https://community.sap.com/t5/crm-and-cx-q-a/qa-p/crm-questions"

def uC7 : String := "https://community.sap.com/t5/crm-and-cx-q-a/q1/qa-p/11"

def uC7b : String := "https://community.sap.com/t5/crm-and-cx-q-a/q2/qa-p/22"

def dataC7 : ThreadData :=
  { title := "t", body := none, tags := [], system := "s",
    answers := [{ bodySelText := none, fullText := "ans",
                  classAttr := some "lia-accepted-solution",
                  authorText := none, dateText := none, images := [], raises := false }] }

def envC7 : Env :=
  { launchOk := true, closeOk := true,
    pageOutcome := fun _ => .loaded [uC7, uC7b],
    threadOutcome := fun _ => .ok dataC7 }

def topicC8 : String := "https://community.sap.com/t5/supply-chain-management-q-a/qa-p/scm-questions"

def envC8 : Env :=
  { launchOk := true, closeOk := true,
    pageOutcome := fun q =>
      if q = 1 then .loaded ["/help", "/t5/user/viewprofilepage/user-id/9"]
      else .loaded ["/t5/x/qa-p/1"],
    threadOutcome := fun _ => .navFail }

def topicC3 : String := "https://community.sap.com/t5/supply-chain-management-q-a/qa-p/scm-questions"

def uC3 : String := "https://community.sap.com/t5/supply-chain-management-q-a/q/qa-p/7"

def dataC3 : ThreadData :=
  { title := "t3", body := none, tags := [], system := "s3",
    answers := [{ bodySelText := some "yes", fullText := "f",
                  classAttr := some "lia-accepted-solution",
                  authorText := none, dateText := none, images := [], raises := false }] }

def envC3 : Env :=
  { launchOk := true, closeOk := true,
    pageOutcome := fun q => if q = 1 then .loaded [uC3] else .loaded [],
    threadOutcome := fun _ => .ok dataC3 }

/-- A record persisted by some previous run against the same topic. -/
def oldRecC3 : Record :=
  { page_number := 0, system := "", title := "old", question := "", question_images := [],
    tags := [], url := "old-url", total_responses := 0, all_responses := [],
    accepted_responses := [], non_accepted_responses := [],
    primary_accepted_response := "", primary_response := "" }

def fs0C3 : Fs :=
  [(checkpointFile (generate_filename_from_url topicC3), .checkpointData 0 ""),
   (acceptedFile (generate_filename_from_url topicC3), .resultsData [oldRecC3])]

def fs1C3 : Fs :=
  [(checkpointFile (generate_filename_from_url topicC3), .checkpointData 0 "")]

/-! ## Claim C9: exception propagation out of the loop bodies -/
def topicC9 : String := "https://community.sap.com/t5/enterprise-resource-planning-q-a/qa-p/erp-questions"

def envC9 : Env :=
  { launchOk := true, closeOk := true,
    pageOutcome := fun _ => .selectorRaise,
    threadOutcome := fun _ => .navFail }

def envC9ok : Env :=
  { launchOk := true, closeOk := true,
    pageOutcome := fun _ => .loadFail,
    threadOutcome := fun _ => .navFail }

/-! # Theorems -/

theorem lcp_iff (pat l : List Char) : lcp pat l = true ↔ ∃ t, l = pat ++ t := by
  induction pat generalizing l with
  | nil => simp [lcp]
  | cons p ps ih =>
    cases l with
    | nil => simp [lcp]
    | cons c cs =>
      simp only [lcp, Bool.and_eq_true, beq_iff_eq, ih]
      constructor
      · rintro ⟨rfl, t, rfl⟩; exact ⟨t, rfl⟩
      · rintro ⟨t, h⟩
        injection h with h1 h2
        exact ⟨h1.symm, t, h2⟩

theorem subSearch_iff (pat l : List Char) :
    subSearch pat l = true ↔ ∃ a b, l = a ++ pat ++ b := by
  induction l with
  | nil =>
    simp only [subSearch, lcp_iff]
    constructor
    · rintro ⟨t, h⟩
      exact ⟨[], t, by simpa using h⟩
    · rintro ⟨a, b, h⟩
      have ha : a = [] := by cases a <;> simp_all
      subst ha
      exact ⟨b, by simpa using h⟩
  | cons c cs ih =>
    simp only [subSearch, Bool.or_eq_true, lcp_iff, ih]
    constructor
    · rintro (⟨t, h⟩ | ⟨a, b, h⟩)
      · exact ⟨[], t, by simpa using h⟩
      · exact ⟨c :: a, b, by simp [h]⟩
    · rintro ⟨a, b, h⟩
      cases a with
      | nil => exact Or.inl ⟨b, by simpa using h⟩
      | cons a0 as =>
        injection h with h1 h2
        exact Or.inr ⟨as, b, h2⟩

theorem filterLinks_eq_filter_map (hrefs : List String) :
    filterLinks hrefs = (hrefs.map normalizeHref).filter keepLink := by
  induction hrefs with
  | nil => rfl
  | cons h t ih =>
    simp only [filterLinks, List.map_cons, List.filter_cons, keepLink]
    by_cases hp : isProfileUrl (normalizeHref h)
    · simp [hp, ih]
    · by_cases ht : isThreadUrl (normalizeHref h)
      · simp [hp, ht, ih]
      · simp [hp, ht, ih]

theorem dedupKeep_sublist (l : List String) :
    ∀ seen, (dedupKeep seen l).Sublist l := by
  induction l with
  | nil => intro seen; simp [dedupKeep]
  | cons u t ih =>
    intro seen
    simp only [dedupKeep]
    by_cases h : u ∈ seen
    · simp only [if_pos h]
      exact (ih seen).cons u
    · simp only [if_neg h]
      exact (ih (u :: seen)).cons₂ u

theorem mem_dedupKeep (l : List String) :
    ∀ seen x, x ∈ dedupKeep seen l ↔ x ∈ l ∧ x ∉ seen := by
  induction l with
  | nil => intro seen x; simp [dedupKeep]
  | cons u t ih =>
    intro seen x
    simp only [dedupKeep]
    by_cases h : u ∈ seen
    · simp only [if_pos h, ih]
      constructor
      · rintro ⟨hx, hs⟩; exact ⟨List.mem_cons_of_mem _ hx, hs⟩
      · rintro ⟨hx, hs⟩
        rcases List.mem_cons.mp hx with rfl | hx
        · exact absurd h hs
        · exact ⟨hx, hs⟩
    · simp only [if_neg h, List.mem_cons, ih]
      constructor
      · rintro (rfl | ⟨hx, hs⟩)
        · exact ⟨Or.inl rfl, h⟩
        · exact ⟨Or.inr hx, fun hc => hs (Or.inr hc)⟩
      · rintro ⟨rfl | hx, hs⟩
        · exact Or.inl rfl
        · by_cases hxu : x = u
          · exact Or.inl hxu
          · exact Or.inr ⟨hx, fun hc => hc.elim hxu hs⟩

theorem dedupKeep_nodup (l : List String) :
    ∀ seen, (dedupKeep seen l).Nodup := by
  induction l with
  | nil => intro seen; simp [dedupKeep]
  | cons u t ih =>
    intro seen
    simp only [dedupKeep]
    by_cases h : u ∈ seen
    · simp only [if_pos h]; exact ih seen
    · simp only [if_neg h]
      refine List.nodup_cons.mpr ⟨?_, ih (u :: seen)⟩
      intro hc
      exact ((mem_dedupKeep t (u :: seen) u).mp hc).2 (List.mem_cons_self u seen)

theorem foldl_firstSeen_eq_dedupKeep (l : List String) :
    ∀ seen acc, (∀ x, x ∈ seen ↔ x ∈ acc) →
      l.foldl (fun acc u => if u ∈ acc then acc else acc ++ [u]) acc
        = acc ++ dedupKeep seen l := by
  induction l with
  | nil => intro seen acc _; simp [dedupKeep]
  | cons u t ih =>
    intro seen acc hiff
    simp only [List.foldl_cons, dedupKeep]
    by_cases h : u ∈ seen
    · rw [if_pos ((hiff u).mp h), if_pos h]
      exact ih seen acc hiff
    · rw [if_neg (fun hc => h ((hiff u).mpr hc)), if_neg h]
      rw [ih (u :: seen) (acc ++ [u]) ?_]
      · simp
      · intro x
        simp only [List.mem_cons, List.mem_append, List.mem_singleton, hiff x]
        tauto

theorem firstSeen_eq_dedupKeep (l : List String) : firstSeen l = dedupKeep [] l := by
  have := foldl_firstSeen_eq_dedupKeep l [] [] (by simp)
  simpa [firstSeen] using this

theorem countProcessed_append (a b : List Event) :
    countProcessed (a ++ b) = countProcessed a + countProcessed b := by
  induction a with
  | nil => simp [countProcessed]
  | cons e t ih => simp [countProcessed, ih]; omega

theorem noFetchNav_append (a b : List Event) :
    noFetchNav (a ++ b) = (noFetchNav a && noFetchNav b) := by
  induction a with
  | nil => simp [noFetchNav]
  | cons e t ih => cases e <;> simp [noFetchNav, ih]

theorem noPageFetch_append (a b : List Event) :
    noPageFetch (a ++ b) = (noPageFetch a && noPageFetch b) := by
  induction a with
  | nil => simp [noPageFetch]
  | cons e t ih => cases e <;> simp [noPageFetch, ih]

theorem accAfter_append (a b : List Event) :
    ∀ acc, accAfter acc (a ++ b) = accAfter (accAfter acc a) b := by
  induction a with
  | nil => intro acc; rfl
  | cons e t ih =>
    intro acc
    cases e with
    | recordAppended isAcc r => cases isAcc <;> simp [accAfter, ih]
    | _ => simp [accAfter, ih]

theorem noAccAfter_append (a b : List Event) :
    ∀ no_acc, noAccAfter no_acc (a ++ b) = noAccAfter (noAccAfter no_acc a) b := by
  induction a with
  | nil => intro no_acc; rfl
  | cons e t ih =>
    intro no_acc
    cases e with
    | recordAppended isAcc r => cases isAcc <;> simp [noAccAfter, ih]
    | _ => simp [noAccAfter, ih]

theorem accAfter_prefix (t : List Event) : ∀ acc, acc <+: accAfter acc t := by
  induction t with
  | nil => intro acc; exact List.prefix_refl acc
  | cons e t ih =>
    intro acc
    cases e with
    | recordAppended isAcc r =>
      cases isAcc
      · simpa [accAfter] using ih acc
      · simp only [accAfter]
        exact (List.prefix_append acc [r]).trans (ih (acc ++ [r]))
    | _ => simpa [accAfter] using ih acc

theorem noAccAfter_prefix (t : List Event) : ∀ no_acc, no_acc <+: noAccAfter no_acc t := by
  induction t with
  | nil => intro no_acc; exact List.prefix_refl no_acc
  | cons e t ih =>
    intro no_acc
    cases e with
    | recordAppended isAcc r =>
      cases isAcc
      · simp only [noAccAfter]
        exact (List.prefix_append no_acc [r]).trans (ih (no_acc ++ [r]))
      · simpa [noAccAfter] using ih no_acc
    | _ => simpa [noAccAfter] using ih no_acc

theorem flushesOK_append (a b : List Event) :
    ∀ acc no_acc, flushesOK acc no_acc (a ++ b)
      = (flushesOK acc no_acc a &&
         flushesOK (accAfter acc a) (noAccAfter no_acc a) b) := by
  induction a with
  | nil => intro acc no_acc; simp [flushesOK, accAfter, noAccAfter]
  | cons e t ih =>
    intro acc no_acc
    cases e with
    | recordAppended isAcc r =>
      cases isAcc <;> simp [flushesOK, accAfter, noAccAfter, ih]
    | flushWrite f aa nn =>
      simp [flushesOK, accAfter, noAccAfter, ih, Bool.and_assoc]
    | _ => simp [flushesOK, accAfter, noAccAfter, ih]

/-- Positional consequence of `flushesOK`: any flush event in the trace
snapshots exactly the collections replayed up to it. -/
theorem flushesOK_flush_eq (f : String) (a n : List Record) (B : List Event) :
    ∀ (A : List Event) acc no_acc,
      flushesOK acc no_acc (A ++ .flushWrite f a n :: B) = true →
      a = accAfter acc A ∧ n = noAccAfter no_acc A := by
  intro A
  induction A with
  | nil =>
    intro acc no_acc h
    simp only [List.nil_append, flushesOK, Bool.and_eq_true, beq_iff_eq] at h
    exact ⟨h.1.1, h.1.2⟩
  | cons e t ih =>
    intro acc no_acc h
    cases e with
    | recordAppended isAcc r =>
      cases isAcc
      · simp only [List.cons_append, flushesOK] at h
        simpa [accAfter, noAccAfter] using ih _ _ h
      · simp only [List.cons_append, flushesOK] at h
        simpa [accAfter, noAccAfter] using ih _ _ h
    | flushWrite f' a' n' =>
      simp only [List.cons_append, flushesOK, Bool.and_eq_true] at h
      simpa [accAfter, noAccAfter] using ih _ _ h.2
    | checkpointWrite f' p' u' =>
      simp only [List.cons_append, flushesOK] at h
      simpa [accAfter, noAccAfter] using ih _ _ h
    | pageFetch p' =>
      simp only [List.cons_append, flushesOK] at h
      simpa [accAfter, noAccAfter] using ih _ _ h
    | threadNav v =>
      simp only [List.cons_append, flushesOK] at h
      simpa [accAfter, noAccAfter] using ih _ _ h

theorem quotaOK_append (N : Nat) (a b : List Event) :
    ∀ c, quotaOK N c (a ++ b)
      = (quotaOK N c a && quotaOK N (c + countProcessed a) b) := by
  induction a with
  | nil => intro c; simp [quotaOK, countProcessed]
  | cons e t ih =>
    intro c
    cases e with
    | recordAppended isAcc r =>
      simp [quotaOK, countProcessed, ih, Nat.add_assoc, Nat.add_comm 1 (countProcessed t)]
    | threadNav v => simp [quotaOK, countProcessed, ih, Bool.and_assoc]
    | pageFetch p => simp [quotaOK, countProcessed, ih, Bool.and_assoc]
    | checkpointWrite f p u => simp [quotaOK, countProcessed, ih]
    | flushWrite f aa nn => simp [quotaOK, countProcessed, ih]

/-- Once the counter has reached a nonzero `N`, a accepted scan contains no
further fetch or navigation. -/
theorem quotaOK_ge_noFetchNav (N : Nat) (B : List Event) :
    ∀ c, N ≤ c → N ≠ 0 → quotaOK N c B = true → noFetchNav B = true := by
  induction B with
  | nil => intro c _ _ _; rfl
  | cons e t ih =>
    intro c hge hne h
    cases e with
    | recordAppended isAcc r =>
      simp only [quotaOK] at h
      simpa [noFetchNav] using ih (c + 1) (le_trans hge (Nat.le_succ c)) hne h
    | threadNav v =>
      simp only [quotaOK, Bool.and_eq_true, decide_eq_true_eq] at h
      omega
    | pageFetch p =>
      simp only [quotaOK, Bool.and_eq_true, Bool.or_eq_true, decide_eq_true_eq] at h
      omega
    | checkpointWrite f p u =>
      simp only [quotaOK] at h
      simpa [noFetchNav] using ih c hge hne h
    | flushWrite f aa nn =>
      simp only [quotaOK] at h
      simpa [noFetchNav] using ih c hge hne h

/-- Positional consequence of `quotaOK`: after the event that processes the
`N`-th thread, no page fetch and no thread navigation occurs. -/
theorem quotaOK_after_nth (N : Nat) (b : Bool) (r : Record) (B : List Event) :
    ∀ (A : List Event) c, quotaOK N c (A ++ .recordAppended b r :: B) = true →
      c + countProcessed A + 1 = N → noFetchNav B = true := by
  intro A
  induction A with
  | nil =>
    intro c h hc
    simp only [List.nil_append, quotaOK] at h
    simp only [countProcessed] at hc
    exact quotaOK_ge_noFetchNav N B (c + 1) (by omega) (by omega) h
  | cons e t ih =>
    intro c h hc
    cases e with
    | recordAppended isAcc r' =>
      simp only [List.cons_append, quotaOK] at h
      simp only [countProcessed] at hc
      exact ih (c + 1) h (by omega)
    | threadNav v =>
      simp only [List.cons_append, quotaOK, Bool.and_eq_true] at h
      simp only [countProcessed] at hc
      exact ih c h.2 (by omega)
    | pageFetch p =>
      simp only [List.cons_append, quotaOK, Bool.and_eq_true] at h
      simp only [countProcessed] at hc
      exact ih c h.2 (by omega)
    | checkpointWrite f p u =>
      simp only [List.cons_append, quotaOK] at h
      simp only [countProcessed] at hc
      exact ih c h (by omega)
    | flushWrite f aa nn =>
      simp only [List.cons_append, quotaOK] at h
      simp only [countProcessed] at hc
      exact ih c h (by omega)

theorem prefetchAux_append (topic_url : String) (t s : List Event) :
    ∀ prev, prefetchAux topic_url prev (t ++ s)
      = (prefetchAux topic_url prev t && prefetchAux topic_url (t.getLastD prev) s) := by
  induction t with
  | nil => intro prev; simp [prefetchAux, List.getLastD]
  | cons e t' ih =>
    intro prev
    simp only [List.cons_append, prefetchAux, List.getLastD_cons, List.append_eq]
    rw [ih e, Bool.and_assoc]

theorem prefetchAux_noPageFetch (topic_url : String) (t : List Event)
    (h : noPageFetch t = true) :
    ∀ prev, prefetchAux topic_url prev t = true := by
  induction t with
  | nil => intro prev; rfl
  | cons e t' ih =>
    intro prev
    cases e <;> simp_all [noPageFetch, prefetchAux]

theorem afterEmptyOK_skip (env : Env) (t s : List Event) (h : noPageFetch t = true) :
    afterEmptyOK env (t ++ s) = afterEmptyOK env s := by
  induction t with
  | nil => rfl
  | cons e t' ih => cases e <;> simp_all [noPageFetch, afterEmptyOK]

theorem afterEmptyOK_nofetch (env : Env) (t : List Event) (h : noPageFetch t = true) :
    afterEmptyOK env t = true := by
  have := afterEmptyOK_skip env t [] h
  simp only [List.append_nil] at this
  rw [this]
  rfl

/-- Positional consequence of `afterEmptyOK`: nothing follows the fetch of a
page whose filtered link list was empty. -/
theorem afterEmptyOK_positional (env : Env) :
    ∀ (A t : List Event), afterEmptyOK env t = true →
      ∀ p B, t = A ++ .pageFetch p :: B → emptyFiltered env p = true → B = [] := by
  intro A
  induction A with
  | nil =>
    intro t h p B ht hemp
    subst ht
    simp only [List.nil_append, afterEmptyOK, hemp, if_true] at h
    exact List.isEmpty_iff.mp h
  | cons e A' ih =>
    intro t h p B ht hemp
    subst ht
    cases e with
    | pageFetch q =>
      simp only [List.cons_append, afterEmptyOK] at h
      cases hq : emptyFiltered env q
      · rw [hq] at h
        simp only [Bool.false_eq_true, if_false] at h
        exact ih _ h p B rfl hemp
      · rw [hq] at h
        simp only [if_true] at h
        simp at h
    | checkpointWrite f p' u =>
      simp only [List.cons_append, afterEmptyOK] at h
      exact ih _ h p B rfl hemp
    | flushWrite f aa nn =>
      simp only [List.cons_append, afterEmptyOK] at h
      exact ih _ h p B rfl hemp
    | threadNav v =>
      simp only [List.cons_append, afterEmptyOK] at h
      exact ih _ h p B rfl hemp
    | recordAppended b r =>
      simp only [List.cons_append, afterEmptyOK] at h
      exact ih _ h p B rfl hemp

/-! ## Control-flow characterizations of the loops -/
/-- `processThread` either skips the thread (failed navigation, or a parse
error — possibly after rebinding `base_filename`), emitting only the
navigation event and leaving the collections, counter and stop flag
untouched; or processes it, appending one record to exactly one collection,
incrementing the counter, emitting append, flush and checkpoint events (the
file writes under the then-current `base_filename`), and setting `stop_all`
from the quota check. -/
theorem processThread_cases (env : Env) (mq : Option Nat) (pg : Nat) (u : String)
    (st : RunState) :
    (∃ st', processThread env mq pg u st = (st', [.threadNav (normalizeHref u)]) ∧
      st'.accepted_results = st.accepted_results ∧
      st'.no_accepted_results = st.no_accepted_results ∧
      st'.visited_count = st.visited_count ∧
      st'.stop_all = st.stop_all) ∨
    (∃ st' b r, processThread env mq pg u st
        = (st', [.threadNav (normalizeHref u), .recordAppended b r,
                 .flushWrite st'.base_filename st'.accepted_results st'.no_accepted_results,
                 .checkpointWrite st'.base_filename pg (normalizeHref u)]) ∧
      st'.accepted_results = st.accepted_results ++ (if b then [r] else []) ∧
      st'.no_accepted_results = st.no_accepted_results ++ (if b then [] else [r]) ∧
      st'.visited_count = st.visited_count + 1 ∧
      st'.stop_all = quotaReached mq st'.visited_count) := by
  cases hout : env.threadOutcome (normalizeHref u) with
  | navFail => exact Or.inl ⟨st, by simp [processThread, hout], rfl, rfl, rfl, rfl⟩
  | parseError bm =>
    cases bm
    · exact Or.inl ⟨st, by simp [processThread, hout], rfl, rfl, rfl, rfl⟩
    · exact Or.inl ⟨{ st with base_filename := generate_filename_from_url (normalizeHref u) },
        by simp [processThread, hout], rfl, rfl, rfl, rfl⟩
  | ok d =>
    cases hbody : d.body with
    | none =>
      cases hemp : ((extract_all_responses d.answers).filter (·.is_accepted)).isEmpty
      · exact Or.inr ⟨{ st with
            accepted_results := st.accepted_results ++ [mkAcceptedRecord pg (normalizeHref u) d],
            visited_count := st.visited_count + 1,
            stop_all := quotaReached mq (st.visited_count + 1) },
          true, mkAcceptedRecord pg (normalizeHref u) d,
          by simp [processThread, hout, hbody, hemp], by simp, by simp, rfl, rfl⟩
      · exact Or.inr ⟨{ st with
            no_accepted_results := st.no_accepted_results ++ [mkNoAcceptedRecord pg (normalizeHref u) d],
            visited_count := st.visited_count + 1,
            stop_all := quotaReached mq (st.visited_count + 1) },
          false, mkNoAcceptedRecord pg (normalizeHref u) d,
          by simp [processThread, hout, hbody, hemp], by simp, by simp, rfl, rfl⟩
    | some bodyPair =>
      cases hemp : ((extract_all_responses d.answers).filter (·.is_accepted)).isEmpty
      · exact Or.inr ⟨{ st with
            base_filename := generate_filename_from_url (normalizeHref u),
            accepted_results := st.accepted_results ++ [mkAcceptedRecord pg (normalizeHref u) d],
            visited_count := st.visited_count + 1,
            stop_all := quotaReached mq (st.visited_count + 1) },
          true, mkAcceptedRecord pg (normalizeHref u) d,
          by simp [processThread, hout, hbody, hemp], by simp, by simp, rfl, rfl⟩
      · exact Or.inr ⟨{ st with
            base_filename := generate_filename_from_url (normalizeHref u),
            no_accepted_results := st.no_accepted_results ++ [mkNoAcceptedRecord pg (normalizeHref u) d],
            visited_count := st.visited_count + 1,
            stop_all := quotaReached mq (st.visited_count + 1) },
          false, mkNoAcceptedRecord pg (normalizeHref u) d,
          by simp [processThread, hout, hbody, hemp], by simp, by simp, rfl, rfl⟩

/-- Unfolding lemmas for the thread loop. -/
theorem threadsLoop_cons_quota (env : Env) (mq : Option Nat) (pg : Nat) (u : String)
    (rest : List String) (st : RunState)
    (hq : quotaReached mq st.visited_count = true) :
    threadsLoop env mq pg (u :: rest) st = ({ st with stop_all := true }, []) := by
  simp [threadsLoop, hq]

theorem threadsLoop_cons_stop (env : Env) (mq : Option Nat) (pg : Nat) (u : String)
    (rest : List String) (st st' : RunState) (d : List Event)
    (hq : quotaReached mq st.visited_count = false)
    (hpt : processThread env mq pg u st = (st', d))
    (hs : st'.stop_all = true) :
    threadsLoop env mq pg (u :: rest) st = (st', d) := by
  simp [threadsLoop, hq, hpt, hs]

theorem threadsLoop_cons_continue (env : Env) (mq : Option Nat) (pg : Nat) (u : String)
    (rest : List String) (st st' : RunState) (d : List Event)
    (hq : quotaReached mq st.visited_count = false)
    (hpt : processThread env mq pg u st = (st', d))
    (hs : st'.stop_all = false) :
    threadsLoop env mq pg (u :: rest) st
      = ((threadsLoop env mq pg rest st').1, d ++ (threadsLoop env mq pg rest st').2) := by
  simp [threadsLoop, hq, hpt, hs]

/-- Main invariants of the thread loop: the resulting collections are the
replay of the emitted append events, every flush snapshots the current
collections, the counter advances by the number of processed threads, the
loop fetches no page, and every navigated URL is a normalized member of the
page's link list. -/
theorem threadsLoop_main (env : Env) (mq : Option Nat) (pg : Nat) (urls : List String) :
    ∀ st,
      (threadsLoop env mq pg urls st).1.accepted_results
        = accAfter st.accepted_results (threadsLoop env mq pg urls st).2 ∧
      (threadsLoop env mq pg urls st).1.no_accepted_results
        = noAccAfter st.no_accepted_results (threadsLoop env mq pg urls st).2 ∧
      flushesOK st.accepted_results st.no_accepted_results (threadsLoop env mq pg urls st).2 = true ∧
      (threadsLoop env mq pg urls st).1.visited_count
        = st.visited_count + countProcessed (threadsLoop env mq pg urls st).2 ∧
      noPageFetch (threadsLoop env mq pg urls st).2 = true ∧
      (∀ v, Event.threadNav v ∈ (threadsLoop env mq pg urls st).2 → v ∈ urls.map normalizeHref) := by
  induction urls with
  | nil =>
    intro st
    simp [threadsLoop, accAfter, noAccAfter, flushesOK, countProcessed, noPageFetch]
  | cons u rest ih =>
    intro st
    cases hq : quotaReached mq st.visited_count with
    | true =>
      rw [threadsLoop_cons_quota env mq pg u rest st hq]
      simp [accAfter, noAccAfter, flushesOK, countProcessed, noPageFetch]
    | false =>
      rcases processThread_cases env mq pg u st with
        ⟨st', hpt, hacc, hnacc, hvis, _⟩ | ⟨st', b, r, hpt, hacc, hnacc, hvis, _⟩
      · cases hs : st'.stop_all with
        | true =>
          rw [threadsLoop_cons_stop env mq pg u rest st st' _ hq hpt hs]
          refine ⟨?_, ?_, ?_, ?_, ?_, ?_⟩
          · simpa [accAfter] using hacc
          · simpa [noAccAfter] using hnacc
          · simp [flushesOK]
          · simpa [countProcessed] using hvis
          · simp [noPageFetch]
          · intro v hv
            simp only [List.mem_singleton, Event.threadNav.injEq] at hv
            simp [hv]
        | false =>
          have hrec := ih st'
          rw [threadsLoop_cons_continue env mq pg u rest st st' _ hq hpt hs]
          refine ⟨?_, ?_, ?_, ?_, ?_, ?_⟩
          · show (threadsLoop env mq pg rest st').1.accepted_results = _
            rw [accAfter_append, hrec.1, hacc]
            simp [accAfter]
          · show (threadsLoop env mq pg rest st').1.no_accepted_results = _
            rw [noAccAfter_append, hrec.2.1, hnacc]
            simp [noAccAfter]
          · show flushesOK _ _ (_ ++ _) = true
            rw [flushesOK_append, Bool.and_eq_true]
            refine ⟨by simp [flushesOK], ?_⟩
            simp only [accAfter, noAccAfter]
            rw [← hacc, ← hnacc]
            exact hrec.2.2.1
          · show (threadsLoop env mq pg rest st').1.visited_count = _
            rw [countProcessed_append, hrec.2.2.2.1, hvis]
            simp [countProcessed]
          · show noPageFetch (_ ++ _) = true
            rw [noPageFetch_append, hrec.2.2.2.2.1]
            simp [noPageFetch]
          · intro v hv
            rcases List.mem_append.mp hv with hv | hv
            · simp only [List.mem_singleton, Event.threadNav.injEq] at hv
              simp [hv]
            · exact List.mem_cons_of_mem _ (hrec.2.2.2.2.2 v hv)
      · cases hs : st'.stop_all with
        | true =>
          rw [threadsLoop_cons_stop env mq pg u rest st st' _ hq hpt hs]
          refine ⟨?_, ?_, ?_, ?_, ?_, ?_⟩
          · cases b <;> simp [accAfter, hacc]
          · cases b <;> simp [noAccAfter, hnacc]
          · cases b <;> simp [flushesOK, hacc, hnacc]
          · cases b <;> simp [countProcessed, hvis]
          · simp [noPageFetch]
          · intro v hv
            simp only [List.mem_cons, List.not_mem_nil, or_false] at hv
            rcases hv with hv | hv | hv | hv <;> simp_all
        | false =>
          have hrec := ih st'
          rw [threadsLoop_cons_continue env mq pg u rest st st' _ hq hpt hs]
          refine ⟨?_, ?_, ?_, ?_, ?_, ?_⟩
          · show (threadsLoop env mq pg rest st').1.accepted_results = _
            rw [accAfter_append, hrec.1, hacc]
            cases b <;> simp [accAfter]
          · show (threadsLoop env mq pg rest st').1.no_accepted_results = _
            rw [noAccAfter_append, hrec.2.1, hnacc]
            cases b <;> simp [noAccAfter]
          · show flushesOK _ _ (_ ++ _) = true
            rw [flushesOK_append, Bool.and_eq_true]
            refine ⟨?_, ?_⟩
            · cases b <;> simp [flushesOK, hacc, hnacc]
            · have heq1 : accAfter st.accepted_results
                  [Event.threadNav (normalizeHref u), Event.recordAppended b r,
                   Event.flushWrite st'.base_filename st'.accepted_results st'.no_accepted_results,
                   Event.checkpointWrite st'.base_filename pg (normalizeHref u)]
                  = st'.accepted_results := by
                cases b <;> simp [accAfter, hacc]
              have heq2 : noAccAfter st.no_accepted_results
                  [Event.threadNav (normalizeHref u), Event.recordAppended b r,
                   Event.flushWrite st'.base_filename st'.accepted_results st'.no_accepted_results,
                   Event.checkpointWrite st'.base_filename pg (normalizeHref u)]
                  = st'.no_accepted_results := by
                cases b <;> simp [noAccAfter, hnacc]
              rw [heq1, heq2]
              exact hrec.2.2.1
          · show (threadsLoop env mq pg rest st').1.visited_count = _
            rw [countProcessed_append, hrec.2.2.2.1, hvis]
            simp [countProcessed]
            omega
          · show noPageFetch (_ ++ _) = true
            rw [noPageFetch_append, hrec.2.2.2.2.1]
            simp [noPageFetch]
          · intro v hv
            rcases List.mem_append.mp hv with hv | hv
            · simp only [List.mem_cons, List.not_mem_nil, or_false] at hv
              rcases hv with hv | hv | hv | hv <;> simp_all
            · exact List.mem_cons_of_mem _ (hrec.2.2.2.2.2 v hv)

/-- Quota invariants of the thread loop with `max_questions = some N`: the
counter never exceeds `N`; the stop flag is raised only at exactly `N` (or
was already set); a nonempty loop that does not stop leaves the counter
strictly below `N`; and the emitted trace respects the quota scanner. -/
theorem threadsLoop_quota (env : Env) (N : Nat) (pg : Nat) (urls : List String) :
    ∀ st, st.visited_count ≤ N →
      (threadsLoop env (some N) pg urls st).1.visited_count ≤ N ∧
      ((threadsLoop env (some N) pg urls st).1.stop_all = true →
        st.stop_all = true ∨ (threadsLoop env (some N) pg urls st).1.visited_count = N) ∧
      (urls ≠ [] → (threadsLoop env (some N) pg urls st).1.stop_all = false →
        (threadsLoop env (some N) pg urls st).1.visited_count < N) ∧
      quotaOK N st.visited_count (threadsLoop env (some N) pg urls st).2 = true := by
  induction urls with
  | nil =>
    intro st hle
    refine ⟨hle, fun hstop => Or.inl hstop, fun hne => absurd rfl hne, rfl⟩
  | cons u rest ih =>
    intro st hle
    cases hq : quotaReached (some N) st.visited_count with
    | true =>
      have hNle : N ≤ st.visited_count := by
        simpa [quotaReached] using hq
      rw [threadsLoop_cons_quota env (some N) pg u rest st hq]
      exact ⟨hle, fun _ => Or.inr (Nat.le_antisymm hle hNle),
        fun _ h => by simp at h, rfl⟩
    | false =>
      have hlt : st.visited_count < N := by
        simpa [quotaReached] using hq
      rcases processThread_cases env (some N) pg u st with
        ⟨st', hpt, _, _, hvis, hstopeq⟩ | ⟨st', b, r, hpt, _, _, hvis, hstopeq⟩
      · cases hs : st'.stop_all with
        | true =>
          rw [threadsLoop_cons_stop env (some N) pg u rest st st' _ hq hpt hs]
          dsimp only
          refine ⟨by omega, fun _ => Or.inl (by rw [← hstopeq, hs]), fun _ h => by
            rw [h] at hs; exact absurd hs (by simp), ?_⟩
          simp [quotaOK, hlt]
        | false =>
          have hrec := ih st' (by omega)
          rw [threadsLoop_cons_continue env (some N) pg u rest st st' _ hq hpt hs]
          refine ⟨hrec.1, ?_, ?_, ?_⟩
          · intro hstop
            rcases hrec.2.1 hstop with h | h
            · rw [hs] at h; exact absurd h (by simp)
            · exact Or.inr h
          · intro _ hstop
            cases rest with
            | nil =>
              have heq : threadsLoop env (some N) pg [] st' = (st', []) := rfl
              rw [heq] at hstop ⊢
              dsimp only at hstop ⊢
              omega
            | cons u2 r2 => exact hrec.2.2.1 (by simp) hstop
          · show quotaOK N st.visited_count (_ ++ _) = true
            rw [quotaOK_append, Bool.and_eq_true]
            refine ⟨by simp [quotaOK, hlt], ?_⟩
            have := hrec.2.2.2
            rw [hvis] at this
            simpa [countProcessed] using this
      · have hptvis : st'.visited_count = st.visited_count + 1 := hvis
        cases hs : st'.stop_all with
        | true =>
          rw [threadsLoop_cons_stop env (some N) pg u rest st st' _ hq hpt hs]
          dsimp only
          refine ⟨by omega, ?_, fun _ h => by
            rw [h] at hs; exact absurd hs (by simp), ?_⟩
          · intro _
            refine Or.inr ?_
            have hN : N ≤ st'.visited_count := by
              have h1 := hstopeq
              rw [hs] at h1
              simpa [quotaReached] using h1.symm
            omega
          · simp [quotaOK, hlt]
        | false =>
          have hlt1 : st'.visited_count < N := by
            have h1 := hstopeq
            rw [hs] at h1
            simpa [quotaReached] using h1.symm
          have hrec := ih st' (by omega)
          rw [threadsLoop_cons_continue env (some N) pg u rest st st' _ hq hpt hs]
          refine ⟨hrec.1, ?_, ?_, ?_⟩
          · intro hstop
            rcases hrec.2.1 hstop with h | h
            · rw [hs] at h; exact absurd h (by simp)
            · exact Or.inr h
          · intro _ hstop
            cases rest with
            | nil =>
              have heq : threadsLoop env (some N) pg [] st' = (st', []) := rfl
              rw [heq] at hstop ⊢
              dsimp only at hstop ⊢
              omega
            | cons u2 r2 => exact hrec.2.2.1 (by simp) hstop
          · show quotaOK N st.visited_count (_ ++ _) = true
            rw [quotaOK_append, Bool.and_eq_true]
            refine ⟨by simp [quotaOK, hlt], ?_⟩
            have := hrec.2.2.2
            rw [hptvis] at this
            simpa [countProcessed] using this

theorem not_pageFetch_mem (t : List Event) (h : noPageFetch t = true) (q : Nat) :
    Event.pageFetch q ∉ t := by
  induction t with
  | nil => simp
  | cons e t' ih => cases e <;> simp_all [noPageFetch]

/-- Unfolding lemmas for the page loop. -/
theorem pagesLoop_cons_loadFail (env : Env) (topic_url : String) (mq : Option Nat)
    (p : Nat) (rest : List Nat) (st : RunState)
    (h : env.pageOutcome p = .loadFail) :
    pagesLoop env topic_url mq (p :: rest) st =
      ⟨(pagesLoop env topic_url mq rest st).st,
       [.checkpointWrite st.base_filename p (listPageURL topic_url p), .pageFetch p]
         ++ (pagesLoop env topic_url mq rest st).trace,
       (pagesLoop env topic_url mq rest st).err⟩ := by
  simp [pagesLoop, h]

theorem pagesLoop_cons_selector (env : Env) (topic_url : String) (mq : Option Nat)
    (p : Nat) (rest : List Nat) (st : RunState)
    (h : env.pageOutcome p = .selectorRaise) :
    pagesLoop env topic_url mq (p :: rest) st =
      ⟨st, [.checkpointWrite st.base_filename p (listPageURL topic_url p), .pageFetch p],
       some .selectorRaise⟩ := by
  simp [pagesLoop, h]

theorem pagesLoop_cons_empty (env : Env) (topic_url : String) (mq : Option Nat)
    (p : Nat) (rest : List Nat) (st : RunState) (hrefs : List String)
    (h : env.pageOutcome p = .loaded hrefs)
    (he : (filterAndDedup hrefs).isEmpty = true) :
    pagesLoop env topic_url mq (p :: rest) st =
      ⟨st, [.checkpointWrite st.base_filename p (listPageURL topic_url p), .pageFetch p],
       none⟩ := by
  simp [pagesLoop, h, he]

theorem pagesLoop_cons_stop (env : Env) (topic_url : String) (mq : Option Nat)
    (p : Nat) (rest : List Nat) (st : RunState) (hrefs : List String)
    (h : env.pageOutcome p = .loaded hrefs)
    (he : (filterAndDedup hrefs).isEmpty = false)
    (hs : (threadsLoop env mq p (filterAndDedup hrefs) st).1.stop_all = true) :
    pagesLoop env topic_url mq (p :: rest) st =
      ⟨(threadsLoop env mq p (filterAndDedup hrefs) st).1,
       [.checkpointWrite st.base_filename p (listPageURL topic_url p), .pageFetch p]
         ++ (threadsLoop env mq p (filterAndDedup hrefs) st).2,
       none⟩ := by
  simp [pagesLoop, h, he, hs]

theorem pagesLoop_cons_continue (env : Env) (topic_url : String) (mq : Option Nat)
    (p : Nat) (rest : List Nat) (st : RunState) (hrefs : List String)
    (h : env.pageOutcome p = .loaded hrefs)
    (he : (filterAndDedup hrefs).isEmpty = false)
    (hs : (threadsLoop env mq p (filterAndDedup hrefs) st).1.stop_all = false) :
    pagesLoop env topic_url mq (p :: rest) st =
      ⟨(pagesLoop env topic_url mq rest (threadsLoop env mq p (filterAndDedup hrefs) st).1).st,
       ([.checkpointWrite st.base_filename p (listPageURL topic_url p), .pageFetch p]
         ++ (threadsLoop env mq p (filterAndDedup hrefs) st).2)
         ++ (pagesLoop env topic_url mq rest (threadsLoop env mq p (filterAndDedup hrefs) st).1).trace,
       (pagesLoop env topic_url mq rest (threadsLoop env mq p (filterAndDedup hrefs) st).1).err⟩ := by
  simp [pagesLoop, h, he, hs]

/-- Main invariants of the page loop: collections are the replay of the
emitted append events, every flush snapshots the collections current at that
moment, the counter advances by the number of processed threads, every page
fetched is in the iterated range, and every thread navigated to is a
normalized filtered link of a loaded page of the range. -/
theorem pagesLoop_main (env : Env) (topic_url : String) (mq : Option Nat) (pages : List Nat) :
    ∀ st,
      (pagesLoop env topic_url mq pages st).st.accepted_results
        = accAfter st.accepted_results (pagesLoop env topic_url mq pages st).trace ∧
      (pagesLoop env topic_url mq pages st).st.no_accepted_results
        = noAccAfter st.no_accepted_results (pagesLoop env topic_url mq pages st).trace ∧
      flushesOK st.accepted_results st.no_accepted_results
        (pagesLoop env topic_url mq pages st).trace = true ∧
      (pagesLoop env topic_url mq pages st).st.visited_count
        = st.visited_count + countProcessed (pagesLoop env topic_url mq pages st).trace ∧
      (∀ q, Event.pageFetch q ∈ (pagesLoop env topic_url mq pages st).trace → q ∈ pages) ∧
      (∀ v, Event.threadNav v ∈ (pagesLoop env topic_url mq pages st).trace →
        ∃ q ∈ pages, ∃ hrefs, env.pageOutcome q = .loaded hrefs ∧
          v ∈ (filterAndDedup hrefs).map normalizeHref) := by
  induction pages with
  | nil =>
    intro st
    simp [pagesLoop, accAfter, noAccAfter, flushesOK, countProcessed]
  | cons p rest ih =>
    intro st
    cases hout : env.pageOutcome p with
    | loadFail =>
      have hrec := ih st
      rw [pagesLoop_cons_loadFail env topic_url mq p rest st hout]
      refine ⟨?_, ?_, ?_, ?_, ?_, ?_⟩
      · show (pagesLoop env topic_url mq rest st).st.accepted_results = _
        rw [accAfter_append]
        simpa [accAfter] using hrec.1
      · show (pagesLoop env topic_url mq rest st).st.no_accepted_results = _
        rw [noAccAfter_append]
        simpa [noAccAfter] using hrec.2.1
      · show flushesOK _ _ (_ ++ _) = true
        rw [flushesOK_append, Bool.and_eq_true]
        exact ⟨by simp [flushesOK], by simpa [accAfter, noAccAfter] using hrec.2.2.1⟩
      · show (pagesLoop env topic_url mq rest st).st.visited_count = _
        rw [countProcessed_append]
        simpa [countProcessed] using hrec.2.2.2.1
      · intro q hq
        rcases List.mem_append.mp hq with hq | hq
        · have : q = p := by simpa using hq
          simp [this]
        · exact List.mem_cons_of_mem _ (hrec.2.2.2.2.1 q hq)
      · intro v hv
        rcases List.mem_append.mp hv with hv | hv
        · simp at hv
        · rcases hrec.2.2.2.2.2 v hv with ⟨q, hqmem, hq⟩
          exact ⟨q, List.mem_cons_of_mem _ hqmem, hq⟩
    | selectorRaise =>
      rw [pagesLoop_cons_selector env topic_url mq p rest st hout]
      refine ⟨by simp [accAfter], by simp [noAccAfter], by simp [flushesOK],
        by simp [countProcessed], ?_, by intro v hv; simp at hv⟩
      intro q hq
      have : q = p := by simpa using hq
      simp [this]
    | loaded hrefs =>
      cases hemp : (filterAndDedup hrefs).isEmpty with
      | true =>
        rw [pagesLoop_cons_empty env topic_url mq p rest st hrefs hout hemp]
        refine ⟨by simp [accAfter], by simp [noAccAfter], by simp [flushesOK],
          by simp [countProcessed], ?_, by intro v hv; simp at hv⟩
        intro q hq
        have : q = p := by simpa using hq
        simp [this]
      | false =>
        have tlm := threadsLoop_main env mq p (filterAndDedup hrefs) st
        cases hs : (threadsLoop env mq p (filterAndDedup hrefs) st).1.stop_all with
        | true =>
          rw [pagesLoop_cons_stop env topic_url mq p rest st hrefs hout hemp hs]
          refine ⟨?_, ?_, ?_, ?_, ?_, ?_⟩
          · show (threadsLoop env mq p (filterAndDedup hrefs) st).1.accepted_results = _
            rw [accAfter_append]
            simpa [accAfter] using tlm.1
          · show (threadsLoop env mq p (filterAndDedup hrefs) st).1.no_accepted_results = _
            rw [noAccAfter_append]
            simpa [noAccAfter] using tlm.2.1
          · show flushesOK _ _ (_ ++ _) = true
            rw [flushesOK_append, Bool.and_eq_true]
            exact ⟨by simp [flushesOK], by simpa [accAfter, noAccAfter] using tlm.2.2.1⟩
          · show (threadsLoop env mq p (filterAndDedup hrefs) st).1.visited_count = _
            rw [countProcessed_append]
            simpa [countProcessed] using tlm.2.2.2.1
          · intro q hq
            rcases List.mem_append.mp hq with hq | hq
            · have : q = p := by simpa using hq
              simp [this]
            · exact absurd hq (not_pageFetch_mem _ tlm.2.2.2.2.1 q)
          · intro v hv
            rcases List.mem_append.mp hv with hv | hv
            · simp at hv
            · exact ⟨p, List.mem_cons_self p rest, hrefs, hout, tlm.2.2.2.2.2 v hv⟩
        | false =>
          have hrec := ih (threadsLoop env mq p (filterAndDedup hrefs) st).1
          rw [pagesLoop_cons_continue env topic_url mq p rest st hrefs hout hemp hs]
          refine ⟨?_, ?_, ?_, ?_, ?_, ?_⟩
          · show (pagesLoop env topic_url mq rest _).st.accepted_results = _
            rw [accAfter_append, accAfter_append]
            rw [hrec.1, tlm.1]
            simp [accAfter]
          · show (pagesLoop env topic_url mq rest _).st.no_accepted_results = _
            rw [noAccAfter_append, noAccAfter_append]
            rw [hrec.2.1, tlm.2.1]
            simp [noAccAfter]
          · show flushesOK _ _ (_ ++ _) = true
            rw [flushesOK_append, Bool.and_eq_true]
            constructor
            · rw [flushesOK_append, Bool.and_eq_true]
              exact ⟨by simp [flushesOK], by simpa [accAfter, noAccAfter] using tlm.2.2.1⟩
            · rw [accAfter_append, noAccAfter_append]
              have h1 : accAfter st.accepted_results
                  [Event.checkpointWrite st.base_filename p (listPageURL topic_url p),
                   Event.pageFetch p] = st.accepted_results := by simp [accAfter]
              have h2 : noAccAfter st.no_accepted_results
                  [Event.checkpointWrite st.base_filename p (listPageURL topic_url p),
                   Event.pageFetch p] = st.no_accepted_results := by simp [noAccAfter]
              rw [h1, h2, ← tlm.1, ← tlm.2.1]
              exact hrec.2.2.1
          · show (pagesLoop env topic_url mq rest _).st.visited_count = _
            rw [countProcessed_append, countProcessed_append]
            rw [hrec.2.2.2.1, tlm.2.2.2.1]
            simp [countProcessed]
            omega
          · intro q hq
            rcases List.mem_append.mp hq with hq | hq
            · rcases List.mem_append.mp hq with hq | hq
              · have : q = p := by simpa using hq
                simp [this]
              · exact absurd hq (not_pageFetch_mem _ tlm.2.2.2.2.1 q)
            · exact List.mem_cons_of_mem _ (hrec.2.2.2.2.1 q hq)
          · intro v hv
            rcases List.mem_append.mp hv with hv | hv
            · rcases List.mem_append.mp hv with hv | hv
              · simp at hv
              · exact ⟨p, List.mem_cons_self p rest, hrefs, hout, tlm.2.2.2.2.2 v hv⟩
            · rcases hrec.2.2.2.2.2 v hv with ⟨q, hqmem, hq⟩
              exact ⟨q, List.mem_cons_of_mem _ hqmem, hq⟩

/-- Quota invariants of the page loop with `max_questions = some N`. -/
theorem pagesLoop_quota (env : Env) (topic_url : String) (N : Nat) (pages : List Nat) :
    ∀ st, st.visited_count ≤ N → (st.visited_count < N ∨ N = 0) → st.stop_all = false →
      (pagesLoop env topic_url (some N) pages st).st.visited_count ≤ N ∧
      ((pagesLoop env topic_url (some N) pages st).st.stop_all = true →
        (pagesLoop env topic_url (some N) pages st).st.visited_count = N) ∧
      quotaOK N st.visited_count (pagesLoop env topic_url (some N) pages st).trace = true := by
  induction pages with
  | nil =>
    intro st h1 _ h3
    refine ⟨h1, ?_, rfl⟩
    intro hstop
    have hh : st.stop_all = true := hstop
    rw [h3] at hh
    exact absurd hh (by simp)
  | cons p rest ih =>
    intro st h1 h2 h3
    cases hout : env.pageOutcome p with
    | loadFail =>
      have hrec := ih st h1 h2 h3
      rw [pagesLoop_cons_loadFail env topic_url (some N) p rest st hout]
      refine ⟨hrec.1, hrec.2.1, ?_⟩
      show quotaOK N st.visited_count (_ ++ _) = true
      rw [quotaOK_append, Bool.and_eq_true]
      refine ⟨by simpa [quotaOK] using h2, ?_⟩
      simpa [countProcessed] using hrec.2.2
    | selectorRaise =>
      rw [pagesLoop_cons_selector env topic_url (some N) p rest st hout]
      refine ⟨h1, ?_, by simpa [quotaOK] using h2⟩
      intro hstop
      have hh : st.stop_all = true := hstop
      rw [h3] at hh
      exact absurd hh (by simp)
    | loaded hrefs =>
      cases hemp : (filterAndDedup hrefs).isEmpty with
      | true =>
        rw [pagesLoop_cons_empty env topic_url (some N) p rest st hrefs hout hemp]
        refine ⟨h1, ?_, by simpa [quotaOK] using h2⟩
        intro hstop
        have hh : st.stop_all = true := hstop
        rw [h3] at hh
        exact absurd hh (by simp)
      | false =>
        have tlq := threadsLoop_quota env N p (filterAndDedup hrefs) st h1
        have tlm := threadsLoop_main env (some N) p (filterAndDedup hrefs) st
        have hne : filterAndDedup hrefs ≠ [] := by
          intro hcon
          rw [hcon] at hemp
          simp at hemp
        cases hs : (threadsLoop env (some N) p (filterAndDedup hrefs) st).1.stop_all with
        | true =>
          rw [pagesLoop_cons_stop env topic_url (some N) p rest st hrefs hout hemp hs]
          refine ⟨tlq.1, ?_, ?_⟩
          · intro _
            rcases tlq.2.1 hs with h | h
            · rw [h3] at h
              exact absurd h (by simp)
            · exact h
          · show quotaOK N st.visited_count (_ ++ _) = true
            rw [quotaOK_append, Bool.and_eq_true]
            refine ⟨by simpa [quotaOK] using h2, ?_⟩
            simpa [countProcessed] using tlq.2.2.2
        | false =>
          have hlt : (threadsLoop env (some N) p (filterAndDedup hrefs) st).1.visited_count < N :=
            tlq.2.2.1 hne hs
          have hrec := ih (threadsLoop env (some N) p (filterAndDedup hrefs) st).1
            tlq.1 (Or.inl hlt) hs
          rw [pagesLoop_cons_continue env topic_url (some N) p rest st hrefs hout hemp hs]
          refine ⟨hrec.1, hrec.2.1, ?_⟩
          show quotaOK N st.visited_count (_ ++ _) = true
          rw [quotaOK_append, Bool.and_eq_true]
          constructor
          · rw [quotaOK_append, Bool.and_eq_true]
            refine ⟨by simpa [quotaOK] using h2, ?_⟩
            simpa [countProcessed] using tlq.2.2.2
          · rw [countProcessed_append]
            have hcnt : st.visited_count +
                (countProcessed [Event.checkpointWrite st.base_filename p (listPageURL topic_url p),
                  Event.pageFetch p] +
                 countProcessed (threadsLoop env (some N) p (filterAndDedup hrefs) st).2)
                = (threadsLoop env (some N) p (filterAndDedup hrefs) st).1.visited_count := by
              rw [tlm.2.2.2.1]
              simp [countProcessed]
            rw [hcnt]
            exact hrec.2.2

theorem pagesLoop_prefetchAux (env : Env) (topic_url : String) (mq : Option Nat)
    (pages : List Nat) :
    ∀ st prev, prefetchAux topic_url prev (pagesLoop env topic_url mq pages st).trace = true := by
  induction pages with
  | nil => intro st prev; rfl
  | cons p rest ih =>
    intro st prev
    cases hout : env.pageOutcome p with
    | loadFail =>
      rw [pagesLoop_cons_loadFail env topic_url mq p rest st hout]
      show prefetchAux topic_url prev (_ ++ _) = true
      rw [prefetchAux_append, Bool.and_eq_true]
      exact ⟨by simp [prefetchAux, isPrefetchCkpt],
        by simpa [List.getLastD_cons, List.getLastD] using ih st (Event.pageFetch p)⟩
    | selectorRaise =>
      rw [pagesLoop_cons_selector env topic_url mq p rest st hout]
      simp [prefetchAux, isPrefetchCkpt]
    | loaded hrefs =>
      cases hemp : (filterAndDedup hrefs).isEmpty with
      | true =>
        rw [pagesLoop_cons_empty env topic_url mq p rest st hrefs hout hemp]
        simp [prefetchAux, isPrefetchCkpt]
      | false =>
        have tlm := threadsLoop_main env mq p (filterAndDedup hrefs) st
        cases hs : (threadsLoop env mq p (filterAndDedup hrefs) st).1.stop_all with
        | true =>
          rw [pagesLoop_cons_stop env topic_url mq p rest st hrefs hout hemp hs]
          show prefetchAux topic_url prev (_ ++ _) = true
          rw [prefetchAux_append, Bool.and_eq_true]
          exact ⟨by simp [prefetchAux, isPrefetchCkpt],
            prefetchAux_noPageFetch topic_url _ tlm.2.2.2.2.1 _⟩
        | false =>
          rw [pagesLoop_cons_continue env topic_url mq p rest st hrefs hout hemp hs]
          show prefetchAux topic_url prev (_ ++ _) = true
          rw [prefetchAux_append, Bool.and_eq_true]
          constructor
          · rw [prefetchAux_append, Bool.and_eq_true]
            exact ⟨by simp [prefetchAux, isPrefetchCkpt],
              prefetchAux_noPageFetch topic_url _ tlm.2.2.2.2.1 _⟩
          · exact ih _ _

theorem prefetchOK_of_aux (topic_url : String) (t : List Event)
    (hhead : ∀ q, t.head? ≠ some (Event.pageFetch q))
    (haux : ∀ prev, prefetchAux topic_url prev t = true) :
    prefetchOK topic_url t = true := by
  cases t with
  | nil => rfl
  | cons e rest =>
    have h := haux e
    cases e with
    | pageFetch q =>
      exact absurd (show (Event.pageFetch q :: rest).head? = some (Event.pageFetch q) from rfl)
        (hhead q)
    | checkpointWrite f p u =>
      simp only [prefetchAux, Bool.and_eq_true] at h
      simpa [prefetchOK] using h.2
    | flushWrite f a n =>
      simp only [prefetchAux, Bool.and_eq_true] at h
      simpa [prefetchOK] using h.2
    | threadNav v =>
      simp only [prefetchAux, Bool.and_eq_true] at h
      simpa [prefetchOK] using h.2
    | recordAppended b r =>
      simp only [prefetchAux, Bool.and_eq_true] at h
      simpa [prefetchOK] using h.2

theorem pagesLoop_head_not_fetch (env : Env) (topic_url : String) (mq : Option Nat)
    (pages : List Nat) (st : RunState) :
    ∀ q, (pagesLoop env topic_url mq pages st).trace.head? ≠ some (Event.pageFetch q) := by
  intro q
  cases pages with
  | nil => simp [pagesLoop]
  | cons p rest =>
    cases hout : env.pageOutcome p with
    | loadFail =>
      rw [pagesLoop_cons_loadFail env topic_url mq p rest st hout]
      simp
    | selectorRaise =>
      rw [pagesLoop_cons_selector env topic_url mq p rest st hout]
      simp
    | loaded hrefs =>
      cases hemp : (filterAndDedup hrefs).isEmpty with
      | true =>
        rw [pagesLoop_cons_empty env topic_url mq p rest st hrefs hout hemp]
        simp
      | false =>
        cases hs : (threadsLoop env mq p (filterAndDedup hrefs) st).1.stop_all with
        | true =>
          rw [pagesLoop_cons_stop env topic_url mq p rest st hrefs hout hemp hs]
          simp
        | false =>
          rw [pagesLoop_cons_continue env topic_url mq p rest st hrefs hout hemp hs]
          simp

theorem pagesLoop_prefetchOK (env : Env) (topic_url : String) (mq : Option Nat)
    (pages : List Nat) (st : RunState) :
    prefetchOK topic_url (pagesLoop env topic_url mq pages st).trace = true :=
  prefetchOK_of_aux topic_url _ (pagesLoop_head_not_fetch env topic_url mq pages st)
    (pagesLoop_prefetchAux env topic_url mq pages st)

theorem pagesLoop_afterEmpty (env : Env) (topic_url : String) (mq : Option Nat)
    (pages : List Nat) :
    ∀ st, afterEmptyOK env (pagesLoop env topic_url mq pages st).trace = true := by
  induction pages with
  | nil => intro st; rfl
  | cons p rest ih =>
    intro st
    cases hout : env.pageOutcome p with
    | loadFail =>
      have hef : emptyFiltered env p = false := by simp [emptyFiltered, hout]
      rw [pagesLoop_cons_loadFail env topic_url mq p rest st hout]
      show afterEmptyOK env (_ ++ _) = true
      simp only [List.cons_append, List.nil_append, afterEmptyOK, hef]
      simp only [Bool.false_eq_true, if_false]
      exact ih st
    | selectorRaise =>
      have hef : emptyFiltered env p = false := by simp [emptyFiltered, hout]
      rw [pagesLoop_cons_selector env topic_url mq p rest st hout]
      simp [afterEmptyOK, hef]
    | loaded hrefs =>
      cases hemp : (filterAndDedup hrefs).isEmpty with
      | true =>
        have hef : emptyFiltered env p = true := by simp [emptyFiltered, hout, hemp]
        rw [pagesLoop_cons_empty env topic_url mq p rest st hrefs hout hemp]
        simp [afterEmptyOK, hef]
      | false =>
        have hef : emptyFiltered env p = false := by simp [emptyFiltered, hout, hemp]
        have tlm := threadsLoop_main env mq p (filterAndDedup hrefs) st
        cases hs : (threadsLoop env mq p (filterAndDedup hrefs) st).1.stop_all with
        | true =>
          rw [pagesLoop_cons_stop env topic_url mq p rest st hrefs hout hemp hs]
          show afterEmptyOK env (_ ++ _) = true
          simp only [List.cons_append, List.nil_append, afterEmptyOK, hef]
          simp only [Bool.false_eq_true, if_false]
          exact afterEmptyOK_nofetch env _ tlm.2.2.2.2.1
        | false =>
          rw [pagesLoop_cons_continue env topic_url mq p rest st hrefs hout hemp hs]
          show afterEmptyOK env (_ ++ _) = true
          rw [List.append_assoc]
          simp only [List.cons_append, List.nil_append, afterEmptyOK, hef, List.append_eq]
          simp only [Bool.false_eq_true, if_false]
          rw [afterEmptyOK_skip env _ _ tlm.2.2.2.2.1]
          exact ih _

theorem pagesLoop_err_none (env : Env) (topic_url : String) (mq : Option Nat)
    (hsel : ∀ p, env.pageOutcome p ≠ .selectorRaise) (pages : List Nat) :
    ∀ st, (pagesLoop env topic_url mq pages st).err = none := by
  induction pages with
  | nil => intro st; rfl
  | cons p rest ih =>
    intro st
    cases hout : env.pageOutcome p with
    | loadFail =>
      rw [pagesLoop_cons_loadFail env topic_url mq p rest st hout]
      exact ih st
    | selectorRaise => exact absurd hout (hsel p)
    | loaded hrefs =>
      cases hemp : (filterAndDedup hrefs).isEmpty with
      | true =>
        rw [pagesLoop_cons_empty env topic_url mq p rest st hrefs hout hemp]
      | false =>
        cases hs : (threadsLoop env mq p (filterAndDedup hrefs) st).1.stop_all with
        | true =>
          rw [pagesLoop_cons_stop env topic_url mq p rest st hrefs hout hemp hs]
        | false =>
          rw [pagesLoop_cons_continue env topic_url mq p rest st hrefs hout hemp hs]
          exact ih _

/-- The first page of the iterated range is always attempted. -/
theorem pagesLoop_first_fetch (env : Env) (topic_url : String) (mq : Option Nat)
    (p : Nat) (rest : List Nat) (st : RunState) :
    Event.pageFetch p ∈ (pagesLoop env topic_url mq (p :: rest) st).trace := by
  cases hout : env.pageOutcome p with
  | loadFail =>
    rw [pagesLoop_cons_loadFail env topic_url mq p rest st hout]
    simp
  | selectorRaise =>
    rw [pagesLoop_cons_selector env topic_url mq p rest st hout]
    simp
  | loaded hrefs =>
    cases hemp : (filterAndDedup hrefs).isEmpty with
    | true =>
      rw [pagesLoop_cons_empty env topic_url mq p rest st hrefs hout hemp]
      simp
    | false =>
      cases hs : (threadsLoop env mq p (filterAndDedup hrefs) st).1.stop_all with
      | true =>
        rw [pagesLoop_cons_stop env topic_url mq p rest st hrefs hout hemp hs]
        simp
      | false =>
        rw [pagesLoop_cons_continue env topic_url mq p rest st hrefs hout hemp hs]
        simp

/-- With a successful browser launch, the run's state and trace are those of
the page loop over `range(start_page, max_pages + 1)`. -/
theorem scrape_state_trace (env : Env) (topic_url : String) (mp : Nat) (mq : Option Nat)
    (res : Bool) (fs0 : Fs) (hl : env.launchOk = true) :
    (scrape_sap_community env topic_url mp mq res fs0).state
      = (pagesLoop env topic_url mq
          (pageRange (resumeStartPage res fs0 (generate_filename_from_url topic_url)) mp)
          (initState topic_url)).st ∧
    (scrape_sap_community env topic_url mp mq res fs0).trace
      = (pagesLoop env topic_url mq
          (pageRange (resumeStartPage res fs0 (generate_filename_from_url topic_url)) mp)
          (initState topic_url)).trace := by
  unfold scrape_sap_community
  simp only [hl]
  cases herr : (pagesLoop env topic_url mq
      (pageRange (resumeStartPage res fs0 (generate_filename_from_url topic_url)) mp)
      (initState topic_url)).err with
  | none =>
    simp only [herr]
    cases hc : env.closeOk <;> simp [hc]
  | some e =>
    simp only [herr]
    simp

/-- With a failed browser launch, the run emits no events. -/
theorem scrape_trace_launchFail (env : Env) (topic_url : String) (mp : Nat)
    (mq : Option Nat) (res : Bool) (fs0 : Fs) (hl : env.launchOk = false) :
    (scrape_sap_community env topic_url mp mq res fs0).trace = []
      ∧ (scrape_sap_community env topic_url mp mq res fs0).state = initState topic_url := by
  unfold scrape_sap_community
  simp [hl]

/-! ## File-system lookup lemmas -/
theorem fsLookup_write_self (fs : Fs) (k : String) (v : FileData) :
    fsLookup (fsWrite fs k v) k = some v := by
  simp [fsLookup, fsWrite, List.find?]

theorem fsLookup_write_other (fs : Fs) (k k' : String) (v : FileData) (h : ¬ k' = k) :
    fsLookup (fsWrite fs k' v) k = fsLookup fs k := by
  simp only [fsLookup, fsWrite, List.find?]
  rw [show ((k', v).1 == k) = false from by simpa using h]

theorem acceptedFile_ne_noAcceptedFile (f g : String) (h : f = g) :
    ¬ noAcceptedFile f = acceptedFile g := by
  subst h
  intro hc
  have h2 := congrArg String.length hc
  simp only [acceptedFile, noAcceptedFile, String.length_append] at h2
  have e1 : "_accepted.json".length = 14 := rfl
  have e2 : "_no_accepted.json".length = 17 := rfl
  rw [e1, e2] at h2
  omega

theorem excelFile_ne_acceptedFile (f g : String) (h : f = g) :
    ¬ excelFile f = acceptedFile g := by
  subst h
  intro hc
  have h2 := congrArg String.length hc
  simp only [acceptedFile, excelFile, String.length_append] at h2
  have e1 : "_accepted.json".length = 14 := rfl
  have e2 : ".xlsx".length = 5 := rfl
  rw [e1, e2] at h2
  omega

theorem excelFile_ne_noAcceptedFile (f g : String) (h : f = g) :
    ¬ excelFile f = noAcceptedFile g := by
  subst h
  intro hc
  have h2 := congrArg String.length hc
  simp only [noAcceptedFile, excelFile, String.length_append] at h2
  have e1 : "_no_accepted.json".length = 17 := rfl
  have e2 : ".xlsx".length = 5 := rfl
  rw [e1, e2] at h2
  omega

/-- Replaying a flush makes the two structured result files hold exactly the
flushed collections, whatever the file system held before. -/
theorem applyEvent_flush_lookup (fs : Fs) (f : String) (acc no_acc : List Record) :
    fsLookup (applyEvent fs (.flushWrite f acc no_acc)) (acceptedFile f)
      = some (.resultsData acc) ∧
    fsLookup (applyEvent fs (.flushWrite f acc no_acc)) (noAcceptedFile f)
      = some (.resultsData no_acc) := by
  unfold applyEvent
  cases hrows : (excelRows acc no_acc).isEmpty with
  | true =>
    simp only [hrows, if_true]
    constructor
    · rw [fsLookup_write_other _ _ _ _ (acceptedFile_ne_noAcceptedFile f f rfl)]
      exact fsLookup_write_self _ _ _
    · exact fsLookup_write_self _ _ _
  | false =>
    simp only [hrows, Bool.false_eq_true, if_false]
    constructor
    · rw [fsLookup_write_other _ _ _ _ (excelFile_ne_acceptedFile f f rfl)]
      rw [fsLookup_write_other _ _ _ _ (acceptedFile_ne_noAcceptedFile f f rfl)]
      exact fsLookup_write_self _ _ _
    · rw [fsLookup_write_other _ _ _ _ (excelFile_ne_noAcceptedFile f f rfl)]
      exact fsLookup_write_self _ _ _

/-! ## Substring characterization -/
/-- Python's `pat in s` holds exactly when `pat` occurs inside `s`. -/
theorem containsSub_iff (s pat : String) :
    containsSub s pat = true ↔ ∃ a b : String, s = a ++ pat ++ b := by
  unfold containsSub
  rw [subSearch_iff]
  constructor
  · rintro ⟨a, b, h⟩
    refine ⟨String.mk a, String.mk b, ?_⟩
    apply String.ext
    simpa [String.toList] using h
  · rintro ⟨a, b, rfl⟩
    exact ⟨a.toList, b.toList, by simp [String.toList]⟩

/-! ## Claim C6: link filtering -/
/-- **C6**: for every list of discovered hrefs, the link-filtering step
produces exactly the hrefs that, after normalization to absolute URLs, are
not profile pages and match the thread-URL pattern, with duplicates removed
and first-seen order preserved: it equals the spec-side
filter-then-dedup-first-occurrences pipeline, has no duplicates, is a
sublist (hence subsequence, preserving order) of the filtered normalized
list, and contains exactly the normalized hrefs passing both tests. -/
theorem c6_link_filtering (hrefs : List String) :
    filterAndDedup hrefs = specLinkFilter hrefs ∧
    (filterAndDedup hrefs).Nodup ∧
    (filterAndDedup hrefs).Sublist ((hrefs.map normalizeHref).filter keepLink) ∧
    (∀ u, u ∈ filterAndDedup hrefs ↔
      u ∈ hrefs.map normalizeHref ∧ isProfileUrl u = false ∧ isThreadUrl u = true) := by
  refine ⟨?_, dedupKeep_nodup _ _, ?_, ?_⟩
  · unfold specLinkFilter filterAndDedup
    rw [firstSeen_eq_dedupKeep, filterLinks_eq_filter_map]
  · unfold filterAndDedup
    rw [filterLinks_eq_filter_map]
    exact dedupKeep_sublist _ _
  · intro u
    unfold filterAndDedup
    rw [mem_dedupKeep, filterLinks_eq_filter_map]
    simp [List.mem_filter, keepLink]

/-! ## Claim C5: classification partition -/
/-- **C5**: a successfully processed thread is appended to exactly one of
the two collections — to `accepted_results` exactly when some extracted
response is accepted — and a response is accepted exactly when its class
attribute contains the substring `lia-accepted-solution` or the substring
`lia-list-row-thread-solved`. -/
theorem c5_classification_partition (env : Env) (max_questions : Option Nat)
    (page_num : Nat) (q_url0 : String) (st : RunState) (d : ThreadData)
    (hok : env.threadOutcome (normalizeHref q_url0) = .ok d) :
    (((extract_all_responses d.answers).filter (·.is_accepted) ≠ []) →
      (processThread env max_questions page_num q_url0 st).1.accepted_results
          = st.accepted_results ++ [mkAcceptedRecord page_num (normalizeHref q_url0) d] ∧
      (processThread env max_questions page_num q_url0 st).1.no_accepted_results
          = st.no_accepted_results) ∧
    (((extract_all_responses d.answers).filter (·.is_accepted) = []) →
      (processThread env max_questions page_num q_url0 st).1.accepted_results
          = st.accepted_results ∧
      (processThread env max_questions page_num q_url0 st).1.no_accepted_results
          = st.no_accepted_results ++ [mkNoAcceptedRecord page_num (normalizeHref q_url0) d]) ∧
    (((extract_all_responses d.answers).filter (·.is_accepted) ≠ []) ↔
      ∃ r ∈ extract_all_responses d.answers, r.is_accepted = true) ∧
    (∀ i e, (mkResponse i e).is_accepted = true ↔
      (∃ a b : String, e.classAttr.getD "" = a ++ "lia-accepted-solution" ++ b) ∨
      (∃ a b : String, e.classAttr.getD "" = a ++ "lia-list-row-thread-solved" ++ b)) := by
  refine ⟨?_, ?_, ?_, ?_⟩
  · intro hne
    have hb : ((extract_all_responses d.answers).filter (·.is_accepted)).isEmpty = false := by
      cases h : ((extract_all_responses d.answers).filter (·.is_accepted)).isEmpty
      · rfl
      · exact absurd (List.isEmpty_iff.mp h) hne
    simp [processThread, hok, hb]
    cases d.body <;> simp
  · intro hnil
    have hb : ((extract_all_responses d.answers).filter (·.is_accepted)).isEmpty = true :=
      List.isEmpty_iff.mpr hnil
    simp [processThread, hok, hb]
    cases d.body <;> simp
  · rw [Ne, List.filter_eq_nil_iff]
    push_neg
    simp
  · intro i e
    simp only [mkResponse, Bool.or_eq_true, containsSub_iff]

theorem c5_classification_partition_witness :
    (processThread envW none 1 "/t5/a/qa-p/1" (initState "https://community.sap.com/t5/a/qa-p/x")).1.accepted_results
      = [mkAcceptedRecord 1 (normalizeHref "/t5/a/qa-p/1") threadDataW] ∧
    (mkResponse 0 answerElemW).is_accepted = true := by
  have h := c5_classification_partition envW none 1 "/t5/a/qa-p/1"
    (initState "https://community.sap.com/t5/a/qa-p/x") threadDataW rfl
  refine ⟨?_, ?_⟩
  · have := (h.1 (by decide)).1
    simpa [initState] using this
  · exact ((h.2.2.2 0 answerElemW).mpr (Or.inl ⟨"MessageView ", "", by decide⟩))

theorem extractImagesLoop_eq_enumFrom (env : ImgEnv) (base_url images_dir : String)
    (l : List ImgElem) :
    ∀ i, extractImagesLoop env base_url images_dir i l
      = (l.enumFrom i).filterMap (fun p => imgEntry env base_url images_dir p.1 p.2) := by
  induction l with
  | nil => intro i; rfl
  | cons e rest ih =>
    intro i
    simp only [extractImagesLoop, List.enumFrom, List.filterMap_cons]
    cases h : imgEntry env base_url images_dir i e <;> simp [h, ih]

/-- **C10**: the image list is a per-element `filterMap` over the enumerated
`<img>` elements — so each element's contribution depends only on that
element, and a failing download cannot disturb the others — and an image
whose download fails (non-200 status or network exception) contributes no
entry at all (no error marker). -/
theorem c10_failed_image_omitted (env : ImgEnv) (base_url images_dir : String)
    (imgs : List ImgElem) (hmk : env.mkdirOk = true) :
    extract_images_from_element env base_url images_dir imgs
      = imgs.enum.filterMap (fun p => imgEntry env base_url images_dir p.1 p.2) ∧
    (∀ i e src, e.src = some src →
      downloadFailed (env.download (resolveSrc env base_url src)) →
      imgEntry env base_url images_dir i e = none) := by
  constructor
  · unfold extract_images_from_element
    rw [hmk]
    simp only [if_true]
    exact extractImagesLoop_eq_enumFrom env base_url images_dir imgs 0
  · intro i e src hsrc hfail
    unfold imgEntry
    rw [hsrc]
    cases hdl : env.download (resolveSrc env base_url src) with
    | status code =>
      rw [hdl] at hfail
      simp only [downloadFailed] at hfail
      simp [hdl, hfail]
    | netError => simp [hdl]

theorem c10_failed_image_omitted_witness :
    (extract_images_from_element imgEnvW "https://x.com" "imgdir" imgsW
      = imgsW.enum.filterMap (fun p => imgEntry imgEnvW "https://x.com" "imgdir" p.1 p.2)) ∧
    imgEntry imgEnvW "https://x.com" "imgdir" 1
      { src := some "https://x.com/b.png", alt := none } = none :=
  ⟨(c10_failed_image_omitted imgEnvW "https://x.com" "imgdir" imgsW rfl).1,
   (c10_failed_image_omitted imgEnvW "https://x.com" "imgdir" imgsW rfl).2 1
     { src := some "https://x.com/b.png", alt := none } "https://x.com/b.png" rfl
     (show (404 : Nat) ≠ 200 by decide)⟩

set_option maxRecDepth 100000 in
/-- **C1**: refuted on the code — the question-body extraction (line 574)
rebinds the `base_filename` local that the checkpoint saves and the
incremental flush close over, to a name derived from the *detail-page* URL.
In this concrete run against topic `crm-and-cx-q-a`, after visiting a thread
of board `enterprise-resource-planning-q-a`, the post-thread checkpoint
write and the flush of both result files and the Excel export all use
`sap_community_enterprise_resource_planning_q_a`, which differs from the
filename derived from the topic URL. -/
theorem c1_artifact_filename_not_topic_derived :
    (Event.checkpointWrite "sap_community_enterprise_resource_planning_q_a" 1 threadUrlC1)
        ∈ (scrape_sap_community envC1 topicC1 1 none false []).trace ∧
    (Event.flushWrite "sap_community_enterprise_resource_planning_q_a"
        [mkAcceptedRecord 1 threadUrlC1 threadDataC1] [])
        ∈ (scrape_sap_community envC1 topicC1 1 none false []).trace ∧
    "sap_community_enterprise_resource_planning_q_a" ≠ generate_filename_from_url topicC1 := by
  refine ⟨?_, ?_, ?_⟩ <;> decide

set_option maxRecDepth 100000 in
/-- **C2**: counterexample.  Resuming from a checkpoint with `last_page = 2`
starts at page 3, whose checkpoint `{3, url}` is persisted before the fetch
is attempted (the first trace event, before the `pageFetch`).  A run that
crashes right after that persist (file system = replay of the first event
only) and restarts with `resume = true` starts at page 4 — not at page 3 as
the claim states: `load` returns `last_page = 3` and the code starts at
`last_page + 1` (lines 240-250), so the pre-fetch persist makes a crash
mid-fetch *skip* page 3. -/
theorem c2_resume_after_prefetch_persist_cex :
    ((scrape_sap_community envC2 topicC2 5 none true fsC2).trace.take 2
      = [Event.checkpointWrite (generate_filename_from_url topicC2) 3 (listPageURL topicC2 3),
         Event.pageFetch 3]) ∧
    resumeStartPage true
        (applyEvents fsC2 ((scrape_sap_community envC2 topicC2 5 none true fsC2).trace.take 1))
        (generate_filename_from_url topicC2) = 4 ∧
    ¬ resumeStartPage true
        (applyEvents fsC2 ((scrape_sap_community envC2 topicC2 5 none true fsC2).trace.take 1))
        (generate_filename_from_url topicC2) = 3 := by
  refine ⟨?_, ?_, ?_⟩ <;> decide

/-- **C2 (amended)**: for every page index the crawl attempts, the checkpoint
`{p, listPageURL p}` is persisted immediately before the fetch attempt (the
scanner `prefetchOK`); and a run restarted with `resume = true` from a
checkpoint recording page `p` starts its list-page iteration at page `p + 1`
(not at `p`: the pre-fetch persist of page `p` therefore makes a crash
mid-fetch resume *after* the unfinished page). -/
theorem c2_checkpoint_before_fetch_resume_next (env : Env) (topic_url : String)
    (mp : Nat) (mq : Option Nat) (res : Bool) (fs0 : Fs) :
    prefetchOK topic_url (scrape_sap_community env topic_url mp mq res fs0).trace = true ∧
    (∀ fs p u bf, load_progress_checkpoint fs bf = (p, u) →
      resumeStartPage true fs bf = p + 1) := by
  constructor
  · cases hl : env.launchOk with
    | false =>
      rw [(scrape_trace_launchFail env topic_url mp mq res fs0 hl).1]
      rfl
    | true =>
      rw [(scrape_state_trace env topic_url mp mq res fs0 hl).2]
      exact pagesLoop_prefetchOK env topic_url mq _ _
  · intro fs p u bf h
    simp [resumeStartPage, h]

theorem c2_checkpoint_before_fetch_resume_next_witness :
    prefetchOK topicC2 (scrape_sap_community envC2 topicC2 5 none true fsC2).trace = true ∧
    resumeStartPage true fsC2 (generate_filename_from_url topicC2) = 2 + 1 :=
  ⟨(c2_checkpoint_before_fetch_resume_next envC2 topicC2 5 none true fsC2).1,
   (c2_checkpoint_before_fetch_resume_next envC2 topicC2 5 none true fsC2).2
     fsC2 2 "prev-url" (generate_filename_from_url topicC2) (by decide)⟩

/-- **C4**: when the checkpoint records completed page `p`, a run restarted
with `resume = true` starts list-page iteration at `p + 1`: page `p + 1` is
attempted first whenever it is in range, every page fetched has index in
`[p + 1, max_pages]`, and every thread navigated to is a filtered link of a
loaded page of that range — so no thread of any page `≤ p` is re-visited. -/
theorem c4_resume_starts_after_checkpoint (env : Env) (topic_url : String)
    (mp : Nat) (mq : Option Nat) (fs0 : Fs) (p : Nat) (u : String)
    (hck : load_progress_checkpoint fs0 (generate_filename_from_url topic_url) = (p, u))
    (hl : env.launchOk = true) :
    (∀ q, Event.pageFetch q ∈ (scrape_sap_community env topic_url mp mq true fs0).trace →
      p + 1 ≤ q ∧ q ≤ mp) ∧
    (p + 1 ≤ mp →
      Event.pageFetch (p + 1) ∈ (scrape_sap_community env topic_url mp mq true fs0).trace) ∧
    (∀ v, Event.threadNav v ∈ (scrape_sap_community env topic_url mp mq true fs0).trace →
      ∃ q, p + 1 ≤ q ∧ q ≤ mp ∧ ∃ hrefs, env.pageOutcome q = .loaded hrefs ∧
        v ∈ (filterAndDedup hrefs).map normalizeHref) := by
  have hsp : resumeStartPage true fs0 (generate_filename_from_url topic_url) = p + 1 := by
    simp [resumeStartPage, hck]
  have htr := (scrape_state_trace env topic_url mp mq true fs0 hl).2
  have plm := pagesLoop_main env topic_url mq
    (pageRange (resumeStartPage true fs0 (generate_filename_from_url topic_url)) mp)
    (initState topic_url)
  refine ⟨?_, ?_, ?_⟩
  · intro q hq
    rw [htr] at hq
    have hmem := plm.2.2.2.2.1 q hq
    rw [hsp] at hmem
    unfold pageRange at hmem
    rw [List.mem_range'_1] at hmem
    omega
  · intro hle
    rw [htr, hsp]
    have hrange : pageRange (p + 1) mp = (p + 1) :: List.range' (p + 1 + 1) (mp - (p + 1)) := by
      unfold pageRange
      rw [show mp + 1 - (p + 1) = (mp - (p + 1)) + 1 from by omega]
      exact List.range'_succ _ _ _
    rw [hrange]
    exact pagesLoop_first_fetch env topic_url mq (p + 1) _ _
  · intro v hv
    rw [htr] at hv
    rcases plm.2.2.2.2.2 v hv with ⟨q, hqmem, hrefs, hq1, hq2⟩
    rw [hsp] at hqmem
    unfold pageRange at hqmem
    rw [List.mem_range'_1] at hqmem
    exact ⟨q, by omega, by omega, hrefs, hq1, hq2⟩

theorem c4_resume_starts_after_checkpoint_witness :
    (∀ q, Event.pageFetch q ∈ (scrape_sap_community envC4 topicC4 6 none true fsC4).trace →
      5 ≤ q ∧ q ≤ 6) ∧
    Event.pageFetch 5 ∈ (scrape_sap_community envC4 topicC4 6 none true fsC4).trace := by
  have h := c4_resume_starts_after_checkpoint envC4 topicC4 6 none fsC4 4 "done"
    (by decide) rfl
  refine ⟨fun q hq => ?_, ?_⟩
  · have := h.1 q hq
    omega
  · have := h.2.1 (by omega)
    simpa using this

/-! ## Claim C7: quota enforcement -/
/-- **C7**: with `max_questions = some N`, the run processes at most `N`
threads; whenever the quota stop flag fired, the count is exactly `N`; the
number of processed-thread events equals the final counter; and once the
`N`-th thread has been processed, no list page is fetched and no thread is
navigated to any more (the run terminates apart from the flush/checkpoint of
that last thread). -/
theorem c7_quota_enforcement (env : Env) (topic_url : String) (mp : Nat) (N : Nat)
    (res : Bool) (fs0 : Fs) :
    (scrape_sap_community env topic_url mp (some N) res fs0).state.visited_count ≤ N ∧
    ((scrape_sap_community env topic_url mp (some N) res fs0).state.stop_all = true →
      (scrape_sap_community env topic_url mp (some N) res fs0).state.visited_count = N) ∧
    countProcessed (scrape_sap_community env topic_url mp (some N) res fs0).trace
      = (scrape_sap_community env topic_url mp (some N) res fs0).state.visited_count ∧
    (∀ A b r B, (scrape_sap_community env topic_url mp (some N) res fs0).trace
        = A ++ Event.recordAppended b r :: B →
      countProcessed A + 1 = N → noFetchNav B = true) := by
  cases hl : env.launchOk with
  | false =>
    have h := scrape_trace_launchFail env topic_url mp (some N) res fs0 hl
    rw [h.1, h.2]
    refine ⟨by simp [initState], by simp [initState], by simp [countProcessed, initState], ?_⟩
    intro A b r B ht _
    exact absurd ht.symm (by simp)
  | true =>
    have htr := scrape_state_trace env topic_url mp (some N) res fs0 hl
    have plq := pagesLoop_quota env topic_url N
      (pageRange (resumeStartPage res fs0 (generate_filename_from_url topic_url)) mp)
      (initState topic_url) (by simp [initState]) (by simp only [initState]; omega) rfl
    have plm := pagesLoop_main env topic_url (some N)
      (pageRange (resumeStartPage res fs0 (generate_filename_from_url topic_url)) mp)
      (initState topic_url)
    rw [htr.1, htr.2]
    refine ⟨plq.1, plq.2.1, ?_, ?_⟩
    · have hcnt := plm.2.2.2.1
      simp only [initState, Nat.zero_add] at hcnt
      exact hcnt.symm
    · intro A b r B ht hc
      have hq0 : quotaOK N 0 (pagesLoop env topic_url (some N)
          (pageRange (resumeStartPage res fs0 (generate_filename_from_url topic_url)) mp)
          (initState topic_url)).trace = true := plq.2.2
      rw [ht] at hq0
      exact quotaOK_after_nth N b r B A 0 hq0 (by omega)

set_option maxRecDepth 100000 in
theorem c7_quota_enforcement_witness :
    noFetchNav ((scrape_sap_community envC7 topicC7 3 (some 1) false []).trace.drop 4) = true ∧
    (scrape_sap_community envC7 topicC7 3 (some 1) false []).state.visited_count = 1 := by
  have h := c7_quota_enforcement envC7 topicC7 3 1 false []
  refine ⟨?_, ?_⟩
  · exact h.2.2.2 ((scrape_sap_community envC7 topicC7 3 (some 1) false []).trace.take 3) true
      (mkAcceptedRecord 1 (normalizeHref uC7) dataC7)
      ((scrape_sap_community envC7 topicC7 3 (some 1) false []).trace.drop 4)
      (by decide) (by decide)
  · exact h.2.1 (by decide)

/-! ## Claim C8: an empty page halts the crawl -/
/-- **C8**: if the trace fetches a page that loaded but whose filtered link
list is empty, nothing at all follows that fetch in the trace: the run
attempts no page of higher index and visits no further thread. -/
theorem c8_empty_page_halts (env : Env) (topic_url : String) (mp : Nat)
    (mq : Option Nat) (res : Bool) (fs0 : Fs) (A B : List Event) (p : Nat)
    (ht : (scrape_sap_community env topic_url mp mq res fs0).trace
        = A ++ Event.pageFetch p :: B)
    (hemp : emptyFiltered env p = true) :
    B = [] := by
  cases hl : env.launchOk with
  | false =>
    rw [(scrape_trace_launchFail env topic_url mp mq res fs0 hl).1] at ht
    exact absurd ht.symm (by simp)
  | true =>
    rw [(scrape_state_trace env topic_url mp mq res fs0 hl).2] at ht
    exact afterEmptyOK_positional env A _
      (pagesLoop_afterEmpty env topic_url mq _ _) p B ht hemp

set_option maxRecDepth 100000 in
theorem c8_empty_page_halts_witness :
    (scrape_sap_community envC8 topicC8 3 none false []).trace
      = [Event.checkpointWrite (generate_filename_from_url topicC8) 1 (listPageURL topicC8 1),
         Event.pageFetch 1] ∧
    ([] : List Event) = [] := by
  refine ⟨by decide, ?_⟩
  exact c8_empty_page_halts envC8 topicC8 3 none false []
    [Event.checkpointWrite (generate_filename_from_url topicC8) 1 (listPageURL topicC8 1)]
    [] 1 (by decide) (by decide)

/-! ## Claim C3: flushes reflect only the current run -/
/-- **C3**: the collections start empty and every flush fully overwrites the
two structured result files.  Consequently (i) the run's behaviour — state
and whole event trace — depends on the prior file system only through the
checkpoint file (prior result-file contents are never read), and (ii) right
after any flush event, the two structured result files hold exactly the
snapshot of the records collected so far in this run — a prefix of the final
collections — whatever the files held before; in particular a resumed run's
first flush discards every record persisted by previous runs. -/
theorem c3_flush_reflects_current_run (env : Env) (topic_url : String) (mp : Nat)
    (mq : Option Nat) (res : Bool) (fs0 fs1 : Fs)
    (hck : load_progress_checkpoint fs0 (generate_filename_from_url topic_url)
         = load_progress_checkpoint fs1 (generate_filename_from_url topic_url)) :
    ((scrape_sap_community env topic_url mp mq res fs0).state
       = (scrape_sap_community env topic_url mp mq res fs1).state ∧
     (scrape_sap_community env topic_url mp mq res fs0).trace
       = (scrape_sap_community env topic_url mp mq res fs1).trace) ∧
    (∀ A f acc no_acc B,
       (scrape_sap_community env topic_url mp mq res fs0).trace
         = A ++ Event.flushWrite f acc no_acc :: B →
       acc <+: (scrape_sap_community env topic_url mp mq res fs0).state.accepted_results ∧
       no_acc <+: (scrape_sap_community env topic_url mp mq res fs0).state.no_accepted_results ∧
       fsLookup (applyEvents fs0 (A ++ [Event.flushWrite f acc no_acc])) (acceptedFile f)
         = some (.resultsData acc) ∧
       fsLookup (applyEvents fs0 (A ++ [Event.flushWrite f acc no_acc])) (noAcceptedFile f)
         = some (.resultsData no_acc)) := by
  have hsp : resumeStartPage res fs0 (generate_filename_from_url topic_url)
      = resumeStartPage res fs1 (generate_filename_from_url topic_url) := by
    unfold resumeStartPage
    rw [hck]
  constructor
  · simp only [scrape_sap_community]
    rw [hsp]
    exact ⟨rfl, rfl⟩
  · intro A f acc no_acc B ht
    have happ : applyEvents fs0 (A ++ [Event.flushWrite f acc no_acc])
        = applyEvent (applyEvents fs0 A) (Event.flushWrite f acc no_acc) := by
      unfold applyEvents
      rw [List.foldl_append]
      rfl
    cases hl : env.launchOk with
    | false =>
      rw [(scrape_trace_launchFail env topic_url mp mq res fs0 hl).1] at ht
      exact absurd ht.symm (by simp)
    | true =>
      have htr := scrape_state_trace env topic_url mp mq res fs0 hl
      rw [htr.2] at ht
      have plm := pagesLoop_main env topic_url mq
        (pageRange (resumeStartPage res fs0 (generate_filename_from_url topic_url)) mp)
        (initState topic_url)
      have hfl : flushesOK [] [] (pagesLoop env topic_url mq
          (pageRange (resumeStartPage res fs0 (generate_filename_from_url topic_url)) mp)
          (initState topic_url)).trace = true := plm.2.2.1
      rw [ht] at hfl
      have hsnap := flushesOK_flush_eq f acc no_acc B A [] [] hfl
      have hacc : (pagesLoop env topic_url mq
          (pageRange (resumeStartPage res fs0 (generate_filename_from_url topic_url)) mp)
          (initState topic_url)).st.accepted_results
          = accAfter acc B := by
        have h1 : (pagesLoop env topic_url mq
            (pageRange (resumeStartPage res fs0 (generate_filename_from_url topic_url)) mp)
            (initState topic_url)).st.accepted_results
            = accAfter ([] : List Record)
              (pagesLoop env topic_url mq
                (pageRange (resumeStartPage res fs0 (generate_filename_from_url topic_url)) mp)
                (initState topic_url)).trace := plm.1
        rw [ht] at h1
        rw [show A ++ Event.flushWrite f acc no_acc :: B
            = (A ++ [Event.flushWrite f acc no_acc]) ++ B from by simp] at h1
        rw [accAfter_append, accAfter_append] at h1
        have h2 : accAfter (accAfter ([] : List Record) A) [Event.flushWrite f acc no_acc]
            = acc := by
          simp only [accAfter]
          exact hsnap.1.symm
        rw [h2] at h1
        exact h1
      have hnacc : (pagesLoop env topic_url mq
          (pageRange (resumeStartPage res fs0 (generate_filename_from_url topic_url)) mp)
          (initState topic_url)).st.no_accepted_results
          = noAccAfter no_acc B := by
        have h1 : (pagesLoop env topic_url mq
            (pageRange (resumeStartPage res fs0 (generate_filename_from_url topic_url)) mp)
            (initState topic_url)).st.no_accepted_results
            = noAccAfter ([] : List Record)
              (pagesLoop env topic_url mq
                (pageRange (resumeStartPage res fs0 (generate_filename_from_url topic_url)) mp)
                (initState topic_url)).trace := plm.2.1
        rw [ht] at h1
        rw [show A ++ Event.flushWrite f acc no_acc :: B
            = (A ++ [Event.flushWrite f acc no_acc]) ++ B from by simp] at h1
        rw [noAccAfter_append, noAccAfter_append] at h1
        have h2 : noAccAfter (noAccAfter ([] : List Record) A) [Event.flushWrite f acc no_acc]
            = no_acc := by
          simp only [noAccAfter]
          exact hsnap.2.symm
        rw [h2] at h1
        exact h1
      refine ⟨?_, ?_, ?_, ?_⟩
      · rw [htr.1, hacc]
        exact accAfter_prefix B acc
      · rw [htr.1, hnacc]
        exact noAccAfter_prefix B no_acc
      · rw [happ]
        exact (applyEvent_flush_lookup _ f acc no_acc).1
      · rw [happ]
        exact (applyEvent_flush_lookup _ f acc no_acc).2

set_option maxRecDepth 100000 in
theorem c3_flush_reflects_current_run_witness :
    (scrape_sap_community envC3 topicC3 2 none true fs0C3).trace
      = (scrape_sap_community envC3 topicC3 2 none true fs1C3).trace ∧
    fsLookup (applyEvents fs0C3
        ((scrape_sap_community envC3 topicC3 2 none true fs0C3).trace.take 5))
        (acceptedFile (generate_filename_from_url topicC3))
      = some (.resultsData [mkAcceptedRecord 1 uC3 dataC3]) := by
  have h := c3_flush_reflects_current_run envC3 topicC3 2 none true fs0C3 fs1C3 (by decide)
  refine ⟨h.1.2, ?_⟩
  have h2 := (h.2 ((scrape_sap_community envC3 topicC3 2 none true fs0C3).trace.take 4)
      (generate_filename_from_url topicC3) [mkAcceptedRecord 1 uC3 dataC3] []
      ((scrape_sap_community envC3 topicC3 2 none true fs0C3).trace.drop 5)
      (by decide)).2.2.1
  rw [show ((scrape_sap_community envC3 topicC3 2 none true fs0C3).trace.take 4)
        ++ [Event.flushWrite (generate_filename_from_url topicC3)
             [mkAcceptedRecord 1 uC3 dataC3] []]
      = (scrape_sap_community envC3 topicC3 2 none true fs0C3).trace.take 5 from by decide] at h2
  exact h2

/-- **C9**: counterexample.  A selector failure in the per-page loop body
that is not a `TimeoutError` (the `except TimeoutError` of line 448 is the
only guard around the selector region; `query_selector_all` at lines 453-461
is outside every `try`) propagates out of the loop: the run ends with an
error and returns no collections, although browser launch and close both
succeed — contradicting the claim that only setup/teardown failures may
terminate the run and that the run always returns the collections. -/
theorem c9_selector_exception_propagates_cex :
    (scrape_sap_community envC9 topicC9 3 none false []).result
      = .error .selectorRaise ∧
    envC9.launchOk = true ∧ envC9.closeOk = true :=
  ⟨rfl, rfl, rfl⟩

/-- **C9 (amended)**: apart from the unguarded selector region of the
per-page body, no exception propagates out of the per-thread or per-page
loop bodies: for every environment in which that region never raises —
navigation failures, blocked pages, parse errors and per-thread persistence
all still arbitrary — a run whose browser launch and close succeed returns
`.ok` with the collections accumulated so far. -/
theorem c9_no_propagation_outside_selector (env : Env) (topic_url : String)
    (mp : Nat) (mq : Option Nat) (res : Bool) (fs0 : Fs)
    (hl : env.launchOk = true) (hc : env.closeOk = true)
    (hsel : ∀ p, env.pageOutcome p ≠ .selectorRaise) :
    (scrape_sap_community env topic_url mp mq res fs0).result
      = .ok ((scrape_sap_community env topic_url mp mq res fs0).state.accepted_results,
             (scrape_sap_community env topic_url mp mq res fs0).state.no_accepted_results) := by
  have herr := pagesLoop_err_none env topic_url mq hsel
    (pageRange (resumeStartPage res fs0 (generate_filename_from_url topic_url)) mp)
    (initState topic_url)
  simp [scrape_sap_community, hl, hc, herr]

theorem c9_no_propagation_outside_selector_witness :
    (scrape_sap_community envC9ok topicC9 2 none false []).result = .ok ([], []) := by
  have h := c9_no_propagation_outside_selector envC9ok topicC9 2 none false [] rfl rfl
    (fun p hcon => nomatch hcon)
  rw [h]
  rfl

end SapScrape
